import Mathlib

/-!
Verification of the resource-modification and build-pipeline engine of the
apk-editor web application (`app.py`).

File contents are modelled as `List Char` (the claims are about byte-identical
text files).  Python's `str.replace` is modelled by `replaceAll`, Python's
substring test `in` by `containsSub`, and the one `re.sub` call in the source
(pattern `<string name="K">.*?</string>`, a literal tag, a lazy dot-star that
cannot cross a newline, and a literal closing tag) by `reSub`.
-/

/-- Boolean prefix test on character lists. -/
def isPref : List Char → List Char → Bool
  | [], _ => true
  | _ :: _, [] => false
  | a :: p, b :: s => a = b && isPref p s

/-- Propositional prefix relation. -/
def Pref (p s : List Char) : Prop := ∃ t, s = p ++ t

/-- Python's substring test `p in s`. -/
def containsSub (p : List Char) : List Char → Bool
  | [] => isPref p []
  | c :: rest => isPref p (c :: rest) || containsSub p rest

/-- Occurrence of `p` as a contiguous substring of `s`. -/
def Occ (p s : List Char) : Prop := ∃ i, Pref p (s.drop i)

/-- Fuel-based engine for Python's `str.replace(old, new)`: leftmost,
non-overlapping, replace-all.  The fuel is an upper bound on the input length;
every step consumes at least one character of the input. -/
def replaceGo (p r : List Char) : Nat → List Char → List Char
  | _, [] => []
  | 0, s => s
  | f + 1, c :: rest =>
      if isPref p (c :: rest) then r ++ replaceGo p r f (List.drop (p.length - 1) rest)
      else c :: replaceGo p r f rest

/-- Python's `s.replace(p, r)` on character lists. -/
def replaceAll (p r s : List Char) : List Char :=
  replaceGo p r s.length s

/-- Decidable bundle of the side conditions of `not_occ_replaceAll`. -/
def sideCond (q r : List Char) : Bool :=
  (!q.isEmpty) && (!containsSub q r)
    && ((List.range r.length).all fun j => !isPref (r.drop j) q)
    && ((List.range q.length).all fun i =>
          (i == 0) || (!isPref (q.drop i) r && !isPref r (q.drop i)))

/-- Scanner for the lazy `.*?` of the source's regex: the least offset at
which `cls` starts, provided no newline is consumed before it (a lazy dot
cannot match a newline); `none` when the regex engine fails here. -/
def findClose (cls : List Char) : List Char → Option Nat
  | [] => if isPref cls [] then some 0 else none
  | c :: rest =>
      if isPref cls (c :: rest) then some 0
      else if c = '\n' then none
      else (findClose cls rest).map (· + 1)

/-- Fuel-based engine for `re.sub(opn + '.*?' + cls, rpl, s)` where `opn` and
`cls` are literal tags: scan left to right, at each position try to match
`opn` then the lazy middle then `cls`; on success emit `rpl` and continue
after the match, otherwise emit one character and continue. -/
def reSubGo (opn cls rpl : List Char) : Nat → List Char → List Char
  | _, [] => []
  | 0, s => s
  | f + 1, c :: rest =>
      if isPref opn (c :: rest) then
        match findClose cls (List.drop opn.length (c :: rest)) with
        | some j =>
            rpl ++ reSubGo opn cls rpl f (List.drop (opn.length + j + cls.length - 1) rest)
        | none => c :: reSubGo opn cls rpl f rest
      else c :: reSubGo opn cls rpl f rest

/-- The source's `re.sub` call on character lists. -/
def reSub (opn cls rpl s : List Char) : List Char :=
  reSubGo opn cls rpl s.length s

/-! ### Model of `app.py`'s GUI-modification engine

`generate_gui_modifications` builds a Python dict of dicts
(`colors` / `layouts` / `strings` / `images` plus the raw description);
dicts are modelled as insertion-ordered association lists with unique keys,
`setKey` mirroring Python dict assignment (update in place, or append).
The `images` entry is built but never populated and never read by
`apply_gui_modifications`, and `description` is never read either, so both
are omitted.  All string scanning is ASCII, so `str.lower()` is embedded as
per-character ASCII lower-casing. -/

def setKey (d : List (List Char × List Char)) (k v : List Char) :
    List (List Char × List Char) :=
  match d with
  | [] => [(k, v)]
  | (k', v') :: rest => if k' = k then (k, v) :: rest else (k', v') :: setKey rest k v

def lookupKey {α : Type} (d : List (List Char × α)) (k : List Char) : Option α :=
  match d with
  | [] => none
  | (k', v') :: rest => if k' = k then some v' else lookupKey rest k

/-- `f'<color name="{color_name}">'` (app.py line 1038). -/
def colorTag (n : List Char) : List Char := "<color name=\"".toList ++ n ++ "\">".toList

/-- First argument of the `content.replace` call at app.py lines 1040-1043.
The f-string leaves the regex fragment as literal text, so `str.replace`
searches for this exact string. -/
def colorPat (n : List Char) : List Char := colorTag n ++ "#[0-9A-Fa-f]{6}</color>".toList

/-- Second argument of the same `content.replace` call. -/
def colorRepl (n v : List Char) : List Char := colorTag n ++ v ++ "</color>".toList

/-- One iteration of the colors loop (app.py lines 1036-1043). -/
def applyColorsStep (content : List Char) (nv : List Char × List Char) : List Char :=
  if containsSub (colorTag nv.1) content then
    replaceAll (colorPat nv.1) (colorRepl nv.1 nv.2) content
  else content

/-- The colors loop over `modifications['colors'].items()`. -/
def applyColors (pairs : List (List Char × List Char)) (content : List Char) : List Char :=
  pairs.foldl applyColorsStep content

/-- `f'<string name="{string_name}">'` (app.py line 1058). -/
def stringTag (n : List Char) : List Char := "<string name=\"".toList ++ n ++ "\">".toList

def stringCloseTag : List Char := "</string>".toList

/-- One iteration of the strings loop (app.py lines 1056-1065):
`re.sub(f'{string_pattern}.*?</string>', f'{string_pattern}{string_value}</string>', content)`. -/
def applyStringsStep (content : List Char) (nv : List Char × List Char) : List Char :=
  if containsSub (stringTag nv.1) content then
    reSub (stringTag nv.1) stringCloseTag (stringTag nv.1 ++ nv.2 ++ stringCloseTag) content
  else content

/-- The strings loop over `modifications['strings'].items()`. -/
def applyStrings (pairs : List (List Char × List Char)) (content : List Char) : List Char :=
  pairs.foldl applyStringsStep content

def sz12 : List Char := "android:textSize=\"12sp\"".toList

def sz14 : List Char := "android:textSize=\"14sp\"".toList

def sz16 : List Char := "android:textSize=\"16sp\"".toList

def sz18 : List Char := "android:textSize=\"18sp\"".toList

def sz20 : List Char := "android:textSize=\"20sp\"".toList

/-- Text-size rewriting of one layout file (app.py lines 1083-1090). -/
def applyTextSize (sz : List Char) (content : List Char) : List Char :=
  if sz = "large".toList then replaceAll sz16 sz20 (replaceAll sz14 sz18 content)
  else if sz = "small".toList then replaceAll sz18 sz14 (replaceAll sz16 sz12 content)
  else content

/-- Per-layout-file action of the layouts loop (app.py lines 1077-1093); only
a `text_size` entry has any effect (`dpad_size` is generated but never read). -/
def applyLayoutFile (layouts : List (List Char × List Char)) (content : List Char) : List Char :=
  match lookupKey layouts "text_size".toList with
  | some sz => applyTextSize sz content
  | none => content

structure Mods where
  colors : List (List Char × List Char)
  strings : List (List Char × List Char)
  layouts : List (List Char × List Char)
  deriving DecidableEq

/-- The on-disk state `apply_gui_modifications` touches: the contents of
`res/values/colors.xml` and `res/values/strings.xml` (absent files are
skipped via `os.path.exists`) and of the `.xml` files under `res/layout`. -/
structure ResourceTree where
  colorsFile : Option (List Char)
  stringsFile : Option (List Char)
  layoutFiles : List (List Char)
  deriving DecidableEq

/-- `apply_gui_modifications` (app.py lines 1022-1100) as a transformation of
the resource tree; each `if modifications[...]` guard is Python dict
truthiness (non-emptiness). -/
def applyMods (m : Mods) (t : ResourceTree) : ResourceTree :=
  let t1 := if m.colors ≠ [] then
      { t with colorsFile := t.colorsFile.map (applyColors m.colors) } else t
  let t2 := if m.strings ≠ [] then
      { t1 with stringsFile := t1.stringsFile.map (applyStrings m.strings) } else t1
  if m.layouts ≠ [] then
    { t2 with layoutFiles := t2.layoutFiles.map (applyLayoutFile m.layouts) } else t2

/-- `apply_gui_modifications` returns `True` on its normal path (its `False`
branch is reached only when an OS exception escapes the file accesses, which
the content-level model has no occasion for). -/
def applyGuiModifications (m : Mods) (t : ResourceTree) : ResourceTree × Bool :=
  (applyMods m t, true)

/-- ASCII embedding of `str.lower()` for the keyword scan. -/
def lowerStr (s : List Char) : List Char := s.map Char.toLower

/-- The fixed color-scheme table (app.py lines 952-960), rows in source
order, values in the order primary, secondary, accent. -/
def colorSchemes : List (List Char × (List Char × List Char × List Char)) :=
  [("blue".toList, ("#007bff".toList, "#6c757d".toList, "#17a2b8".toList)),
   ("green".toList, ("#28a745".toList, "#6c757d".toList, "#20c997".toList)),
   ("red".toList, ("#dc3545".toList, "#6c757d".toList, "#fd7e14".toList)),
   ("purple".toList, ("#6f42c1".toList, "#6c757d".toList, "#e83e8c".toList)),
   ("orange".toList, ("#fd7e14".toList, "#6c757d".toList, "#ffc107".toList)),
   ("dark".toList, ("#343a40".toList, "#6c757d".toList, "#ffffff".toList)),
   ("light".toList, ("#f8f9fa".toList, "#e9ecef".toList, "#343a40".toList))]

/-- Control-knob color rule (app.py lines 969-977). -/
def knobColors (low : List Char) (d : List (List Char × List Char)) :
    List (List Char × List Char) :=
  if containsSub "knob".toList low || containsSub "control".toList low then
    if containsSub "blue".toList low then setKey d "control_color".toList "#007bff".toList
    else if containsSub "green".toList low then setKey d "control_color".toList "#28a745".toList
    else if containsSub "red".toList low then setKey d "control_color".toList "#dc3545".toList
    else if containsSub "orange".toList low then setKey d "control_color".toList "#fd7e14".toList
    else d
  else d

/-- D-pad size rule (app.py lines 980-984). -/
def dpadLayouts (low : List Char) (d : List (List Char × List Char)) :
    List (List Char × List Char) :=
  if containsSub "dpad".toList low || containsSub "d-pad".toList low then
    if containsSub "bigger".toList low || containsSub "larger".toList low then
      setKey d "dpad_size".toList "large".toList
    else if containsSub "smaller".toList low then setKey d "dpad_size".toList "small".toList
    else d
  else d

/-- Glow color rule (app.py lines 987-993). -/
def glowColors (low : List Char) (d : List (List Char × List Char)) :
    List (List Char × List Char) :=
  if containsSub "glow".toList low || containsSub "light".toList low then
    if containsSub "blue".toList low then setKey d "glow_color".toList "#007bff".toList
    else if containsSub "green".toList low then setKey d "glow_color".toList "#28a745".toList
    else if containsSub "red".toList low then setKey d "glow_color".toList "#dc3545".toList
    else d
  else d

/-- Connection-status string rule (app.py lines 996-1001); note that
`'connected' in s` is also true of every string containing `'disconnected'`. -/
def connStrings (low : List Char) (d : List (List Char × List Char)) :
    List (List Char × List Char) :=
  if containsSub "connection".toList low || containsSub "status".toList low then
    if containsSub "connected".toList low then
      setKey d "connection_status".toList "Connected".toList
    else if containsSub "disconnected".toList low then
      setKey d "connection_status".toList "Disconnected".toList
    else d
  else d

/-- Connection-status color rule (same guards, app.py lines 996-1002). -/
def connColors (low : List Char) (d : List (List Char × List Char)) :
    List (List Char × List Char) :=
  if containsSub "connection".toList low || containsSub "status".toList low then
    if containsSub "connected".toList low then
      setKey d "status_color".toList "#28a745".toList
    else if containsSub "disconnected".toList low then
      setKey d "status_color".toList "#dc3545".toList
    else d
  else d

/-- Button color rule (app.py lines 1005-1011). -/
def buttonColors (low : List Char) (d : List (List Char × List Char)) :
    List (List Char × List Char) :=
  if containsSub "button".toList low then
    if containsSub "blue".toList low then setKey d "button_color".toList "#007bff".toList
    else if containsSub "green".toList low then setKey d "button_color".toList "#28a745".toList
    else if containsSub "red".toList low then setKey d "button_color".toList "#dc3545".toList
    else d
  else d

/-- Text size rule (app.py lines 1014-1018). -/
def textLayouts (low : List Char) (d : List (List Char × List Char)) :
    List (List Char × List Char) :=
  if containsSub "text".toList low then
    if containsSub "bigger".toList low || containsSub "larger".toList low then
      setKey d "text_size".toList "large".toList
    else if containsSub "smaller".toList low then setKey d "text_size".toList "small".toList
    else d
  else d

/-- The scheme expansion (app.py lines 951-963): `if color_scheme:` is
Python string truthiness, then a key test against the table; a recognized
scheme replaces the colors dict with the table row. -/
def schemeColors (scheme : List Char) : List (List Char × List Char) :=
  if scheme ≠ [] then
    match lookupKey colorSchemes scheme with
    | some t => [("primary".toList, t.1), ("secondary".toList, t.2.1),
                 ("accent".toList, t.2.2)]
    | none => []
  else []

/-- `generate_gui_modifications` (app.py lines 940-1020): the scheme table
populates `colors` first, then the keyword rules fire in source order. -/
def genMods (desc scheme : List Char) : Mods :=
  { colors := buttonColors (lowerStr desc) (connColors (lowerStr desc)
      (glowColors (lowerStr desc) (knobColors (lowerStr desc) (schemeColors scheme)))),
    strings := connStrings (lowerStr desc) [],
    layouts := textLayouts (lowerStr desc) (dpadLayouts (lowerStr desc) []) }

/-! ### Model of the build-pipeline orchestration routes -/

/-- A build artifact as the orchestrator observes it: `os.path.exists` and
`os.path.getsize` of the path the collaborator returned. -/
structure BuildArtifact where
  onDisk : Bool
  sizeBytes : Nat
  deriving DecidableEq

/-- The slice of the project-store metadata dict that the compile, sign and
save routes write (`update_project_metadata` keys). -/
structure ProjectMeta where
  status : List Char
  compiledFlag : Bool
  compiledAt : Option (List Char)
  apkSize : Option Nat
  signedFlag : Bool
  signedAt : Option (List Char)
  lastModified : Option (List Char)
  lastResourceEdited : Option (List Char)
  lastEditType : Option (List Char)
  lastContentPreview : Option (List Char)
  deriving DecidableEq

inductive CompileOutcome
  | projectNotFound
  | buildFailed
  | outputMissing
  | invalidFile
  | compiledOk
  deriving DecidableEq

/-- The `compile_apk` route (app.py lines 245-288).  `proj` is the
project-store record (`none` when `get_project` fails), `art` the external
collaborator's result (`none` for a falsy `output_path`), `now` the
timestamp.  Metadata is stamped only on the fully validated path; an
artifact under 1024 bytes is reported as a failed compilation. -/
def compileApkStep (proj : Option ProjectMeta) (art : Option BuildArtifact)
    (now : List Char) : Option ProjectMeta × CompileOutcome :=
  match proj with
  | none => (none, CompileOutcome.projectNotFound)
  | some meta =>
    match art with
    | none => (some meta, CompileOutcome.buildFailed)
    | some a =>
      if a.onDisk then
        if a.sizeBytes < 1024 then (some meta, CompileOutcome.invalidFile)
        else
          (some { meta with
                    status := "compiled".toList
                    compiledFlag := true
                    compiledAt := some now
                    apkSize := some a.sizeBytes },
           CompileOutcome.compiledOk)
      else (some meta, CompileOutcome.outputMissing)

inductive SignOutcome
  | projectNotFound
  | inputError
  | signedOk
  | signFailed
  deriving DecidableEq

/-- The `sign_apk` route (app.py lines 607-644).  `compiledArt` models
`get_compiled_apk_path` plus `os.path.exists` (`none` for a falsy path),
`signOk` the result of the signing collaborator.  The `Bool` in the result
records whether the signing collaborator was invoked at all.  A missing or
non-existing compiled artifact yields the 400 invalid-input response with no
collaborator call and no metadata change. -/
def signApkStep (proj : Option ProjectMeta) (compiledArt : Option BuildArtifact)
    (signOk : Bool) (now : List Char) : Option ProjectMeta × SignOutcome × Bool :=
  match proj with
  | none => (none, SignOutcome.projectNotFound, false)
  | some meta =>
    match compiledArt with
    | none => (some meta, SignOutcome.inputError, false)
    | some a =>
      if a.onDisk then
        if signOk then
          (some { meta with
                    status := "signed".toList
                    signedFlag := true
                    signedAt := some now },
           SignOutcome.signedOk, true)
        else (some meta, SignOutcome.signFailed, true)
      else (some meta, SignOutcome.inputError, false)

inductive SaveOutcome
  | savedOk
  | saveFailed
  | skipped
  deriving DecidableEq

/-- `content[:50] + '...'` truncation of the metadata preview
(app.py line 203). -/
def previewOf (content : List Char) : List Char :=
  if content.length > 50 then content.take 50 ++ "...".toList else content

/-- The `save_resource` route (app.py lines 168-243).  `kind` is the
`resource_type` URL component; `imageProvided` models the presence of a
non-empty `image_file` upload; `saveOk` the result of the matching
`apk_editor.save_*_resource` collaborator call.  The list in the result
records which collaborator write operations were invoked.  A `kind` outside
image/string/layout runs no branch: no write, no metadata stamp, and the
route completes with its normal redirect (`success` stays `False`, no
exception is raised). -/
def saveResourceStep (kind : List Char) (imageProvided saveOk : Bool)
    (content : List Char) (meta : ProjectMeta) (now rpath : List Char) :
    ProjectMeta × List (List Char) × SaveOutcome :=
  if kind = "image".toList then
    if imageProvided then
      if saveOk then
        ({ meta with
             status := "modified".toList
             lastModified := some now
             lastResourceEdited := some rpath
             lastEditType := some "image".toList },
         ["save_image_resource".toList], SaveOutcome.savedOk)
      else (meta, ["save_image_resource".toList], SaveOutcome.saveFailed)
    else (meta, [], SaveOutcome.skipped)
  else if kind = "string".toList then
    if saveOk then
      ({ meta with
           status := "modified".toList
           lastModified := some now
           lastResourceEdited := some rpath
           lastEditType := some "string".toList
           lastContentPreview := some (previewOf content) },
       ["save_string_resource".toList], SaveOutcome.savedOk)
    else (meta, ["save_string_resource".toList], SaveOutcome.saveFailed)
  else if kind = "layout".toList then
    if saveOk then
      ({ meta with
           status := "modified".toList
           lastModified := some now
           lastResourceEdited := some rpath
           lastEditType := some "layout".toList
           lastContentPreview := some "XML Layout Modified".toList },
       ["save_layout_resource".toList], SaveOutcome.savedOk)
    else (meta, ["save_layout_resource".toList], SaveOutcome.saveFailed)
  else (meta, [], SaveOutcome.skipped)

/-! ### Idempotence of the colors pass -/

/-- Every (name, value) pair `generate_gui_modifications` can put into
`modifications['colors']`: scheme-table rows plus keyword-rule assignments. -/
def admissibleColorPairs : List (List Char × List Char) :=
  [("primary".toList, "#007bff".toList), ("primary".toList, "#28a745".toList),
   ("primary".toList, "#dc3545".toList), ("primary".toList, "#6f42c1".toList),
   ("primary".toList, "#fd7e14".toList), ("primary".toList, "#343a40".toList),
   ("primary".toList, "#f8f9fa".toList),
   ("secondary".toList, "#6c757d".toList), ("secondary".toList, "#e9ecef".toList),
   ("accent".toList, "#17a2b8".toList), ("accent".toList, "#20c997".toList),
   ("accent".toList, "#fd7e14".toList), ("accent".toList, "#e83e8c".toList),
   ("accent".toList, "#ffc107".toList), ("accent".toList, "#ffffff".toList),
   ("accent".toList, "#343a40".toList),
   ("control_color".toList, "#007bff".toList), ("control_color".toList, "#28a745".toList),
   ("control_color".toList, "#dc3545".toList), ("control_color".toList, "#fd7e14".toList),
   ("glow_color".toList, "#007bff".toList), ("glow_color".toList, "#28a745".toList),
   ("glow_color".toList, "#dc3545".toList),
   ("status_color".toList, "#28a745".toList), ("status_color".toList, "#dc3545".toList),
   ("button_color".toList, "#007bff".toList), ("button_color".toList, "#28a745".toList),
   ("button_color".toList, "#dc3545".toList)]

def colorNames : List (List Char) :=
  ["primary".toList, "secondary".toList, "accent".toList, "control_color".toList,
   "glow_color".toList, "status_color".toList, "button_color".toList]

/-! ### Idempotence of the strings pass -/

/-- Decidable bundle of the side conditions of `reSub_idem`. -/
def reSubCond (opn cls val : List Char) : Bool :=
  decide (opn ≠ []) && decide (cls ≠ [])
    && (opn.all fun c => decide (c ≠ '\n')) && (val.all fun c => decide (c ≠ '\n'))
    && (val.all fun c => decide (cls.head? ≠ some c))
    && ((opn.drop 1).all fun c => decide (opn.head? ≠ some c))
    && ((List.range cls.length).all fun i =>
          decide (i = 0) || !isPref (cls.drop i) (opn ++ val ++ cls))
    && ((List.range opn.length).all fun i =>
          decide (i = 0) || !isPref (opn.drop i) (opn ++ val ++ cls))

/-! ### Sample data for the concrete claims -/

def sampleColorsXml : List Char :=
  "<resources>\n    <color name=\"primary\">#123456</color>\n</resources>\n".toList

def sampleTreeC3 : ResourceTree :=
  { colorsFile := some sampleColorsXml, stringsFile := none, layoutFiles := [] }

def emptyTree : ResourceTree :=
  { colorsFile := none, stringsFile := none, layoutFiles := [] }

def sampleMeta : ProjectMeta :=
  { status := "decompiled".toList, compiledFlag := false, compiledAt := none,
    apkSize := none, signedFlag := false, signedAt := none, lastModified := none,
    lastResourceEdited := none, lastEditType := none, lastContentPreview := none }

theorem pref_nil_left (s : List Char) : Pref [] s := ⟨s, rfl⟩

theorem pref_nil_right {p : List Char} (h : Pref p []) : p = [] := by
  rcases h with ⟨t, ht⟩
  rcases List.append_eq_nil.mp ht.symm with ⟨h1, _⟩
  exact h1

theorem pref_cons {a b : Char} {p s : List Char} :
    Pref (a :: p) (b :: s) ↔ a = b ∧ Pref p s := by
  constructor
  · rintro ⟨t, ht⟩
    injection ht with h1 h2
    exact ⟨h1.symm, t, h2⟩
  · rintro ⟨rfl, t, rfl⟩
    exact ⟨t, rfl⟩

theorem pref_iff {p s : List Char} : isPref p s = true ↔ Pref p s := by
  induction p generalizing s with
  | nil => simp [isPref, pref_nil_left]
  | cons a p ih =>
    cases s with
    | nil =>
      simp only [isPref, Bool.false_eq_true, false_iff]
      intro h
      exact absurd (pref_nil_right h) (by simp)
    | cons b s =>
      simp [isPref, pref_cons, ih, and_comm]

theorem pref_length {p s : List Char} (h : Pref p s) : p.length ≤ s.length := by
  rcases h with ⟨t, rfl⟩
  simp

theorem pref_append_self (a b : List Char) : Pref a (a ++ b) := ⟨b, rfl⟩

theorem pref_refl (a : List Char) : Pref a a := ⟨[], by simp⟩

theorem pref_total {x u l : List Char} (hx : Pref x l) (hu : Pref u l) :
    Pref x u ∨ Pref u x := by
  induction l generalizing x u with
  | nil =>
    left
    rw [pref_nil_right hx]
    exact pref_nil_left u
  | cons c l ih =>
    cases x with
    | nil => exact Or.inl (pref_nil_left u)
    | cons a x =>
      cases u with
      | nil => exact Or.inr (pref_nil_left _)
      | cons b u =>
        rcases pref_cons.mp hx with ⟨rfl, hx'⟩
        rcases pref_cons.mp hu with ⟨rfl, hu'⟩
        rcases ih hx' hu' with h | h
        · exact Or.inl (pref_cons.mpr ⟨rfl, h⟩)
        · exact Or.inr (pref_cons.mpr ⟨rfl, h⟩)

theorem pref_append_short {q u b : List Char} (h : Pref q (u ++ b))
    (hl : q.length ≤ u.length) : Pref q u := by
  induction u generalizing q with
  | nil =>
    cases q with
    | nil => exact pref_refl []
    | cons a q => simp at hl
  | cons c u ih =>
    cases q with
    | nil => exact pref_nil_left _
    | cons a q =>
      rcases pref_cons.mp h with ⟨rfl, h'⟩
      exact pref_cons.mpr ⟨rfl, ih h' (Nat.succ_le_succ_iff.mp hl)⟩

theorem pref_append_left_elim {a b s : List Char} (h : Pref (a ++ b) s) : Pref a s := by
  rcases h with ⟨t, rfl⟩
  exact ⟨b ++ t, by simp⟩

theorem occ_of_pref {p s : List Char} (h : Pref p s) : Occ p s := ⟨0, by simpa using h⟩

theorem occ_tail {p rest : List Char} (c : Char) (h : Occ p rest) : Occ p (c :: rest) := by
  rcases h with ⟨i, hi⟩
  exact ⟨i + 1, by simpa using hi⟩

theorem occ_cons_elim {q : List Char} {c : Char} {t : List Char} (h : Occ q (c :: t)) :
    Pref q (c :: t) ∨ Occ q t := by
  rcases h with ⟨i, hi⟩
  cases i with
  | zero => exact Or.inl (by simpa using hi)
  | succ i => exact Or.inr ⟨i, by simpa using hi⟩

theorem occ_nil {q : List Char} (h : Occ q []) : q = [] := by
  rcases h with ⟨i, hi⟩
  simpa using pref_nil_right (by simpa using hi)

theorem occ_drop_elim {q s : List Char} {n : Nat} (h : Occ q (s.drop n)) : Occ q s := by
  rcases h with ⟨i, hi⟩
  rw [List.drop_drop] at hi
  exact ⟨n + i, hi⟩

theorem occ_append_elim {q a b : List Char} (h : Occ q (a ++ b)) :
    Occ q b ∨ ∃ j, j < a.length ∧ Pref q (a.drop j ++ b) := by
  induction a with
  | nil => exact Or.inl (by simpa using h)
  | cons c a ih =>
    rcases occ_cons_elim (by simpa using h) with hp | ho
    · exact Or.inr ⟨0, by simp, by simpa using hp⟩
    · rcases ih ho with h' | ⟨j, hj, hp⟩
      · exact Or.inl h'
      · exact Or.inr ⟨j + 1, by simpa using hj, by simpa using hp⟩

theorem occ_append_left {a b s : List Char} (h : Occ (a ++ b) s) : Occ a s := by
  rcases h with ⟨i, hi⟩
  exact ⟨i, pref_append_left_elim hi⟩

theorem occ_iff {p s : List Char} : containsSub p s = true ↔ Occ p s := by
  induction s with
  | nil =>
    simp only [containsSub, pref_iff]
    constructor
    · intro h
      exact occ_of_pref h
    · intro h
      rw [occ_nil h]
      exact pref_nil_left []
  | cons c rest ih =>
    simp only [containsSub, Bool.or_eq_true, pref_iff, ih]
    constructor
    · rintro (h | h)
      · exact occ_of_pref h
      · exact occ_tail c h
    · intro h
      rcases occ_cons_elim h with h | h
      · exact Or.inl h
      · exact Or.inr h

theorem replaceGo_irrel (p r : List Char) :
    ∀ f g s, s.length ≤ f → s.length ≤ g → replaceGo p r f s = replaceGo p r g s := by
  intro f
  induction f with
  | zero =>
    intro g s hf _
    have hs : s = [] := List.eq_nil_of_length_eq_zero (Nat.le_zero.mp hf)
    subst hs
    cases g <;> rfl
  | succ f ih =>
    intro g s hf hg
    cases s with
    | nil => cases g <;> rfl
    | cons c rest =>
      cases g with
      | zero => simp at hg
      | succ g' =>
        have h1 : rest.length ≤ f := Nat.succ_le_succ_iff.mp (by simpa using hf)
        have h2 : rest.length ≤ g' := Nat.succ_le_succ_iff.mp (by simpa using hg)
        have h3 : (List.drop (p.length - 1) rest).length ≤ rest.length := by
          rw [List.length_drop]
          omega
        simp only [replaceGo]
        by_cases hp : isPref p (c :: rest)
        · rw [if_pos hp, if_pos hp, ih g' _ (le_trans h3 h1) (le_trans h3 h2)]
        · rw [if_neg hp, if_neg hp, ih g' rest h1 h2]

theorem replaceAll_nil (p r : List Char) : replaceAll p r [] = [] := rfl

theorem replaceAll_pos {p s : List Char} (r : List Char) (hp : p ≠ []) (h : Pref p s) :
    replaceAll p r s = r ++ replaceAll p r (s.drop p.length) := by
  cases s with
  | nil => exact absurd (pref_nil_right h) hp
  | cons c rest =>
    cases p with
    | nil => exact absurd rfl hp
    | cons a p' =>
      show replaceGo _ _ (rest.length + 1) _ = _
      simp only [replaceGo, if_pos (pref_iff.mpr h)]
      congr 1
      rw [List.length_cons, Nat.add_sub_cancel, List.drop_succ_cons]
      exact replaceGo_irrel _ _ _ _ _ (by simp [List.length_drop]) (le_refl _)

theorem replaceAll_neg {p : List Char} {c : Char} {rest : List Char} (r : List Char)
    (h : ¬ Pref p (c :: rest)) :
    replaceAll p r (c :: rest) = c :: replaceAll p r rest := by
  show replaceGo _ _ (rest.length + 1) _ = _
  simp only [replaceGo]
  rw [if_neg (fun hb => h (pref_iff.mp hb))]
  rfl

theorem replaceAll_of_not_occ {p s : List Char} (r : List Char) (h : ¬ Occ p s) :
    replaceAll p r s = s := by
  induction s with
  | nil => rfl
  | cons c rest ih =>
    have h1 : ¬ Pref p (c :: rest) := fun hp => h (occ_of_pref hp)
    rw [replaceAll_neg r h1, ih (fun ho => h (occ_tail c ho))]

theorem pref_replaceAll_aux (p r : List Char) (hp : p ≠ []) :
    ∀ n s q', s.length ≤ n → q' ≠ [] →
      (∀ i, i < q'.length → ¬ Pref (q'.drop i) r ∧ ¬ Pref r (q'.drop i)) →
      Pref q' (replaceAll p r s) → Pref q' s := by
  intro n
  induction n with
  | zero =>
    intro s q' hs hq _ hpref
    have : s = [] := List.eq_nil_of_length_eq_zero (Nat.le_zero.mp hs)
    subst this
    rw [replaceAll_nil] at hpref
    exact absurd (pref_nil_right hpref) hq
  | succ n ih =>
    intro s q' hs hq hcond hpref
    cases s with
    | nil =>
      rw [replaceAll_nil] at hpref
      exact absurd (pref_nil_right hpref) hq
    | cons c rest =>
      by_cases hps : Pref p (c :: rest)
      · rw [replaceAll_pos r hp hps] at hpref
        have h0 := hcond 0 (by cases q' with | nil => exact absurd rfl hq | cons a b => simp)
        simp only [List.drop_zero] at h0
        rcases pref_total hpref (pref_append_self r _) with h | h
        · exact absurd h h0.1
        · exact absurd h h0.2
      · rw [replaceAll_neg r hps] at hpref
        cases q' with
        | nil => exact absurd rfl hq
        | cons q0 q1 =>
          rcases pref_cons.mp hpref with ⟨rfl, hq1⟩
          by_cases h1 : q1 = []
          · subst h1
            exact pref_cons.mpr ⟨rfl, pref_nil_left rest⟩
          · have hcond' : ∀ i, i < q1.length → ¬ Pref (q1.drop i) r ∧ ¬ Pref r (q1.drop i) := by
              intro i hi
              have := hcond (i + 1) (by simpa using hi)
              simpa using this
            have := ih rest q1 (Nat.succ_le_succ_iff.mp (by simpa using hs)) h1 hcond' hq1
            exact pref_cons.mpr ⟨rfl, this⟩

/-- If `q` never straddles a copy of the replacement `r` (the prefix/suffix
side conditions below), then `replaceAll p r` can only remove occurrences of
`q`, never create them; and for `q = p` the result has no occurrence at all. -/
theorem not_occ_replaceAll (p r q : List Char) (hp : p ≠ [])
    (hq : q ≠ []) (hqr : ¬ Occ q r)
    (hB : ∀ j, j < r.length → ¬ Pref (r.drop j) q)
    (hAD : ∀ i, 1 ≤ i → i < q.length → ¬ Pref (q.drop i) r ∧ ¬ Pref r (q.drop i)) :
    ∀ s, (q = p ∨ ¬ Occ q s) → ¬ Occ q (replaceAll p r s) := by
  have haux : ∀ n s, s.length ≤ n → (q = p ∨ ¬ Occ q s) → ¬ Occ q (replaceAll p r s) := by
    intro n
    induction n with
    | zero =>
      intro s hs _ hocc
      have : s = [] := List.eq_nil_of_length_eq_zero (Nat.le_zero.mp hs)
      subst this
      rw [replaceAll_nil] at hocc
      exact hq (occ_nil hocc)
    | succ n ih =>
      intro s hs hdisj hocc
      cases s with
      | nil =>
        rw [replaceAll_nil] at hocc
        exact hq (occ_nil hocc)
      | cons c rest =>
        by_cases hps : Pref p (c :: rest)
        · rw [replaceAll_pos r hp hps] at hocc
          rcases occ_append_elim hocc with h | ⟨j, hj, hpref⟩
          · have hlen : ((c :: rest).drop p.length).length ≤ n := by
              rw [List.length_drop]
              have : p.length ≥ 1 := by cases p with | nil => exact absurd rfl hp | cons a b => simp
              simp only [List.length_cons] at hs ⊢
              omega
            have hdisj' : q = p ∨ ¬ Occ q ((c :: rest).drop p.length) := by
              rcases hdisj with h' | h'
              · exact Or.inl h'
              · exact Or.inr (fun ho => h' (occ_drop_elim ho))
            exact ih _ hlen hdisj' h
          · by_cases hlen : q.length ≤ r.length - j
            · have : Pref q (r.drop j) :=
                pref_append_short hpref (by rw [List.length_drop]; exact hlen)
              exact hqr ⟨j, this⟩
            · rcases pref_total hpref (pref_append_self (r.drop j) _) with h2 | h2
              · have := pref_length h2
                rw [List.length_drop] at this
                omega
              · exact hB j hj h2
        · rw [replaceAll_neg r hps] at hocc
          rcases occ_cons_elim hocc with hpref | hocc'
          · cases q with
            | nil => exact hq rfl
            | cons q0 q1 =>
              rcases pref_cons.mp hpref with ⟨rfl, hq1⟩
              have hqs : Pref (q0 :: q1) (q0 :: rest) := by
                by_cases h1 : q1 = []
                · subst h1
                  exact pref_cons.mpr ⟨rfl, pref_nil_left rest⟩
                · have hcond' : ∀ i, i < q1.length →
                      ¬ Pref (q1.drop i) r ∧ ¬ Pref r (q1.drop i) := by
                    intro i hi
                    have := hAD (i + 1) (Nat.le_add_left 1 i) (by simpa using hi)
                    simpa using this
                  exact pref_cons.mpr
                    ⟨rfl, pref_replaceAll_aux p r hp rest.length rest q1 (le_refl _) h1 hcond' hq1⟩
              rcases hdisj with rfl | hno
              · exact hps hqs
              · exact hno (occ_of_pref hqs)
          · have hdisj' : q = p ∨ ¬ Occ q rest := by
              rcases hdisj with h' | h'
              · exact Or.inl h'
              · exact Or.inr (fun ho => h' (occ_tail c ho))
            exact ih rest (Nat.succ_le_succ_iff.mp (by simpa using hs)) hdisj' hocc'
  intro s
  exact haux s.length s (le_refl _)

theorem sideCond_spec {q r : List Char} (h : sideCond q r = true) :
    q ≠ [] ∧ ¬ Occ q r ∧ (∀ j, j < r.length → ¬ Pref (r.drop j) q) ∧
      (∀ i, 1 ≤ i → i < q.length → ¬ Pref (q.drop i) r ∧ ¬ Pref r (q.drop i)) := by
  simp only [sideCond, Bool.and_eq_true, List.all_eq_true, List.mem_range,
    Bool.or_eq_true, Bool.not_eq_true', beq_iff_eq] at h
  obtain ⟨⟨⟨h1, h2⟩, h3⟩, h4⟩ := h
  refine ⟨by simpa using h1, ?_, ?_, ?_⟩
  · intro ho
    have ht := occ_iff.mpr ho
    rw [h2] at ht
    exact Bool.false_ne_true ht
  · intro j hj hpref
    have ht := pref_iff.mpr hpref
    rw [h3 j hj] at ht
    exact Bool.false_ne_true ht
  · intro i hi1 hi2
    rcases h4 i hi2 with h' | h'
    · omega
    · constructor
      · intro hpref
        have ht := pref_iff.mpr hpref
        rw [h'.1] at ht
        exact Bool.false_ne_true ht
      · intro hpref
        have ht := pref_iff.mpr hpref
        rw [h'.2] at ht
        exact Bool.false_ne_true ht

/-- Convenient form: under the decidable side conditions, a `replaceAll` pass
leaves no occurrence of its own pattern and preserves absence of any other
pattern satisfying the conditions. -/
theorem not_occ_replaceAll_of_sideCond {p r q : List Char} (hp : p ≠ [])
    (hsc : sideCond q r = true) (s : List Char) (h : q = p ∨ ¬ Occ q s) :
    ¬ Occ q (replaceAll p r s) := by
  obtain ⟨h1, h2, h3, h4⟩ := sideCond_spec hsc
  exact not_occ_replaceAll p r q hp h1 h2 h3 h4 s h

theorem reSubGo_irrel (opn cls rpl : List Char) :
    ∀ f g s, s.length ≤ f → s.length ≤ g → reSubGo opn cls rpl f s = reSubGo opn cls rpl g s := by
  intro f
  induction f with
  | zero =>
    intro g s hf _
    have hs : s = [] := List.eq_nil_of_length_eq_zero (Nat.le_zero.mp hf)
    subst hs
    cases g <;> rfl
  | succ f ih =>
    intro g s hf hg
    cases s with
    | nil => cases g <;> rfl
    | cons c rest =>
      cases g with
      | zero => simp at hg
      | succ g' =>
        have h1 : rest.length ≤ f := Nat.succ_le_succ_iff.mp (by simpa using hf)
        have h2 : rest.length ≤ g' := Nat.succ_le_succ_iff.mp (by simpa using hg)
        simp only [reSubGo]
        by_cases hp : isPref opn (c :: rest)
        · rw [if_pos hp, if_pos hp]
          cases hfc : findClose cls (List.drop opn.length (c :: rest)) with
          | some j =>
            have h3 : (List.drop (opn.length + j + cls.length - 1) rest).length ≤ rest.length := by
              rw [List.length_drop]
              omega
            exact congrArg (fun t => rpl ++ t) (ih g' _ (le_trans h3 h1) (le_trans h3 h2))
          | none => exact congrArg (fun t => c :: t) (ih g' rest h1 h2)
        · rw [if_neg hp, if_neg hp, ih g' rest h1 h2]

theorem reSub_nil (opn cls rpl : List Char) : reSub opn cls rpl [] = [] := rfl

theorem reSub_match {opn : List Char} (cls rpl : List Char) {s : List Char} {j : Nat}
    (ho : opn ≠ []) (hopn : Pref opn s)
    (hfc : findClose cls (s.drop opn.length) = some j) :
    reSub opn cls rpl s = rpl ++ reSub opn cls rpl (s.drop (opn.length + j + cls.length)) := by
  cases s with
  | nil => exact absurd (pref_nil_right hopn) ho
  | cons c rest =>
    show reSubGo _ _ _ (rest.length + 1) _ = _
    simp only [reSubGo, if_pos (pref_iff.mpr hopn), hfc]
    congr 1
    have h1 : 1 ≤ opn.length := by
      cases opn with
      | nil => exact absurd rfl ho
      | cons a b => simp
    have h2 : opn.length + j + cls.length = (opn.length + j + cls.length - 1) + 1 := by omega
    rw [h2, List.drop_succ_cons]
    exact reSubGo_irrel _ _ _ _ _ _ (by rw [List.length_drop]; omega) (le_refl _)

theorem reSub_cons_of {opn cls rpl : List Char} {c : Char} {rest : List Char}
    (h : ¬ Pref opn (c :: rest) ∨ findClose cls ((c :: rest).drop opn.length) = none) :
    reSub opn cls rpl (c :: rest) = c :: reSub opn cls rpl rest := by
  show reSubGo _ _ _ (rest.length + 1) _ = _
  simp only [reSubGo]
  by_cases hp : isPref opn (c :: rest)
  · rcases h with h | h
    · exact absurd (pref_iff.mp hp) h
    · rw [if_pos hp, h]
      rfl
  · rw [if_neg hp]
    rfl

theorem pref_head_ne {l : List Char} {d : Char} (z : List Char)
    (hl : l ≠ []) (h : l.head? ≠ some d) : ¬ Pref l (d :: z) := by
  cases l with
  | nil => exact absurd rfl hl
  | cons a t =>
    intro hp
    rcases pref_cons.mp hp with ⟨rfl, _⟩
    exact h rfl

theorem drop_len_append (a b : List Char) : (a ++ b).drop a.length = b := by
  induction a with
  | nil => rfl
  | cons c a ih => simp [ih]

/-- Scanning a region whose positions never start a match copies it verbatim. -/
theorem reSub_append_skip (opn cls rpl : List Char) :
    ∀ a b, (∀ i, i < a.length → ¬ Pref opn (a.drop i ++ b)) →
      reSub opn cls rpl (a ++ b) = a ++ reSub opn cls rpl b := by
  intro a
  induction a with
  | nil => intro b _; rfl
  | cons c a ih =>
    intro b hno
    have h0 : ¬ Pref opn (c :: (a ++ b)) := by simpa using hno 0 (by simp)
    have ih' := ih b (fun i hi => by simpa using hno (i + 1) (by simpa using hi))
    rw [List.cons_append, reSub_cons_of (Or.inl h0), ih', List.cons_append]

theorem findClose_cons (cls : List Char) (c : Char) (rest : List Char) :
    findClose cls (c :: rest) =
      if isPref cls (c :: rest) then some 0
      else if c = '\n' then none else (findClose cls rest).map (· + 1) := rfl

theorem fc_cons_none {cls : List Char} {c : Char} {rest : List Char}
    (h : findClose cls (c :: rest) = none) :
    ¬ Pref cls (c :: rest) ∧ (c = '\n' ∨ findClose cls rest = none) := by
  rw [findClose_cons] at h
  by_cases h1 : isPref cls (c :: rest)
  · rw [if_pos h1] at h
    exact absurd h (by simp)
  · rw [if_neg h1] at h
    refine ⟨fun hp => h1 (pref_iff.mpr hp), ?_⟩
    by_cases h2 : c = '\n'
    · exact Or.inl h2
    · rw [if_neg h2, Option.map_eq_none'] at h
      exact Or.inr h

theorem fc_cons_out {cls : List Char} {c : Char} {X : List Char}
    (hnp : ¬ Pref cls (c :: X)) (h : c = '\n' ∨ findClose cls X = none) :
    findClose cls (c :: X) = none := by
  have h1 : ¬ isPref cls (c :: X) = true := fun hb => hnp (pref_iff.mp hb)
  rw [findClose_cons, if_neg h1]
  rcases h with rfl | h
  · simp
  · by_cases h2 : c = '\n'
    · rw [if_pos h2]
    · rw [if_neg h2, h]
      rfl

theorem fc_prepend {cls : List Char} :
    ∀ a b, '\n' ∉ a → findClose cls (a ++ b) = none → findClose cls b = none := by
  intro a
  induction a with
  | nil => intro b _ h; simpa using h
  | cons c a ih =>
    intro b hnl h
    rw [List.cons_append] at h
    rcases fc_cons_none h with ⟨_, h2⟩
    rcases h2 with rfl | h2
    · exact absurd (List.mem_cons_self _ _) hnl
    · exact ih b (fun hm => hnl (List.mem_cons_of_mem c hm)) h2

theorem fc_val {cls : List Char} (hc : cls ≠ []) :
    ∀ val b, '\n' ∉ val → (∀ c ∈ val, cls.head? ≠ some c) →
      findClose cls (val ++ (cls ++ b)) = some val.length := by
  intro val
  induction val with
  | nil =>
    intro b _ _
    show findClose cls (cls ++ b) = some 0
    cases cls with
    | nil => exact absurd rfl hc
    | cons a t =>
      have h1 : isPref (a :: t) ((a :: t) ++ b) = true := pref_iff.mpr (pref_append_self _ b)
      rw [List.cons_append] at h1 ⊢
      rw [findClose_cons, if_pos h1]
  | cons v val ih =>
    intro b hnl hch
    have h1 : ¬ Pref cls (v :: (val ++ (cls ++ b))) :=
      pref_head_ne _ hc (hch v (List.mem_cons_self v val))
    have h1' : ¬ isPref cls (v :: (val ++ (cls ++ b))) = true := fun hb => h1 (pref_iff.mp hb)
    have h2 : v ≠ '\n' := fun hh => hnl (hh ▸ List.mem_cons_self v val)
    have ih' := ih b (fun hm => hnl (List.mem_cons_of_mem v hm))
      (fun c hm => hch c (List.mem_cons_of_mem v hm))
    rw [List.cons_append, findClose_cons, if_neg h1', if_neg h2, ih']
    rfl

theorem pref_reSub_aux (opn cls rpl : List Char) (ho : opn ≠ []) :
    ∀ n v q', v.length ≤ n → q' ≠ [] → q'.length < rpl.length →
      (∀ i, i < q'.length → ¬ Pref (q'.drop i) rpl) →
      Pref q' (reSub opn cls rpl v) → Pref q' v := by
  intro n
  induction n with
  | zero =>
    intro v q' hv hq _ _ hpref
    have hvn : v = [] := List.eq_nil_of_length_eq_zero (Nat.le_zero.mp hv)
    subst hvn
    rw [reSub_nil] at hpref
    exact absurd (pref_nil_right hpref) hq
  | succ n ih =>
    intro v q' hv hq hlen hcond hpref
    cases v with
    | nil =>
      rw [reSub_nil] at hpref
      exact absurd (pref_nil_right hpref) hq
    | cons c rest =>
      have hstep : reSub opn cls rpl (c :: rest) = c :: reSub opn cls rpl rest →
          Pref q' (c :: rest) := by
        intro heq
        rw [heq] at hpref
        cases q' with
        | nil => exact absurd rfl hq
        | cons q0 q1 =>
          rcases pref_cons.mp hpref with ⟨rfl, hq1⟩
          by_cases h1 : q1 = []
          · subst h1
            exact pref_cons.mpr ⟨rfl, pref_nil_left rest⟩
          · have hcond' : ∀ i, i < q1.length → ¬ Pref (q1.drop i) rpl := by
              intro i hi
              have := hcond (i + 1) (by simpa using hi)
              simpa using this
            have hr := ih rest q1 (Nat.succ_le_succ_iff.mp (by simpa using hv)) h1
              (lt_of_le_of_lt (by simp) hlen) hcond' hq1
            exact pref_cons.mpr ⟨rfl, hr⟩
      by_cases hopn : Pref opn (c :: rest)
      · cases hfc : findClose cls ((c :: rest).drop opn.length) with
        | some j =>
          rw [reSub_match cls rpl ho hopn hfc] at hpref
          rcases pref_total hpref (pref_append_self rpl _) with h | h
          · have h0 := hcond 0 (List.length_pos.mpr hq)
            rw [List.drop_zero] at h0
            exact absurd h h0
          · have := pref_length h
            omega
        | none => exact hstep (reSub_cons_of (Or.inr hfc))
      · exact hstep (reSub_cons_of (Or.inl hopn))

theorem pref_cls_cons_reSub (opn cls rpl : List Char) (ho : opn ≠ []) (hc : cls ≠ [])
    (hclsLen : cls.length ≤ rpl.length)
    (hcr : ∀ i, 1 ≤ i → i < cls.length → ¬ Pref (cls.drop i) rpl)
    {c : Char} {rest : List Char} (hnp : ¬ Pref cls (c :: rest)) :
    ¬ Pref cls (c :: reSub opn cls rpl rest) := by
  intro hp
  cases cls with
  | nil => exact hc rfl
  | cons d ct =>
    rcases pref_cons.mp hp with ⟨rfl, hct⟩
    by_cases h1 : ct = []
    · subst h1
      exact hnp (pref_cons.mpr ⟨rfl, pref_nil_left rest⟩)
    · have hcond : ∀ i, i < ct.length → ¬ Pref (ct.drop i) rpl := by
        intro i hi
        have := hcr (i + 1) (Nat.le_add_left 1 i) (by simpa using hi)
        simpa using this
      have hlen : ct.length < rpl.length := by
        simp only [List.length_cons] at hclsLen
        omega
      have hr := pref_reSub_aux opn (d :: ct) rpl ho rest.length rest ct le_rfl h1 hlen hcond hct
      exact hnp (pref_cons.mpr ⟨rfl, hr⟩)

theorem fc_reSub_none (opn cls rpl : List Char) (ho : opn ≠ []) (hc : cls ≠ [])
    (hnlo : '\n' ∉ opn)
    (hclsLen : cls.length ≤ rpl.length)
    (hcr : ∀ i, 1 ≤ i → i < cls.length → ¬ Pref (cls.drop i) rpl) :
    ∀ n w, w.length ≤ n → findClose cls w = none →
      findClose cls (reSub opn cls rpl w) = none := by
  intro n
  induction n with
  | zero =>
    intro w hw hfc
    have hwn : w = [] := List.eq_nil_of_length_eq_zero (Nat.le_zero.mp hw)
    subst hwn
    rw [reSub_nil]
    exact hfc
  | succ n ih =>
    intro w hw hfc
    cases w with
    | nil =>
      rw [reSub_nil]
      exact hfc
    | cons c rest =>
      rcases fc_cons_none hfc with ⟨hnp, hrest⟩
      have hle : rest.length ≤ n := Nat.succ_le_succ_iff.mp (by simpa using hw)
      have hout : c = '\n' ∨ findClose cls (reSub opn cls rpl rest) = none := by
        rcases hrest with h' | h'
        · exact Or.inl h'
        · exact Or.inr (ih rest hle h')
      by_cases hopn : Pref opn (c :: rest)
      · cases hfcd : findClose cls ((c :: rest).drop opn.length) with
        | some j =>
          exfalso
          obtain ⟨w', hw'⟩ := hopn
          have h1 : findClose cls w' = none :=
            fc_prepend opn w' hnlo (by rw [← hw']; exact hfc)
          have h2 : findClose cls w' = some j := by
            rw [← drop_len_append opn w', ← hw']
            exact hfcd
          rw [h1] at h2
          exact absurd h2 (by simp)
        | none =>
          rw [reSub_cons_of (Or.inr hfcd)]
          exact fc_cons_out (pref_cls_cons_reSub opn cls rpl ho hc hclsLen hcr hnp) hout
      · rw [reSub_cons_of (Or.inl hopn)]
        exact fc_cons_out (pref_cls_cons_reSub opn cls rpl ho hc hclsLen hcr hnp) hout

/-- Idempotence of the source's `re.sub` rewrite: replacing every
`opn … cls` region by `opn ++ val ++ cls` is a no-op when applied a second
time.  The side conditions are decidable facts about the concrete tags. -/
theorem reSub_idem (opn cls val rpl : List Char) (hrpl : rpl = opn ++ val ++ cls)
    (ho : opn ≠ []) (hc : cls ≠ [])
    (hnlo : '\n' ∉ opn) (hnlv : '\n' ∉ val)
    (hvch : ∀ c ∈ val, cls.head? ≠ some c)
    (hoch : ∀ c ∈ opn.drop 1, opn.head? ≠ some c)
    (hcr : ∀ i, 1 ≤ i → i < cls.length → ¬ Pref (cls.drop i) rpl)
    (hor : ∀ i, 1 ≤ i → i < opn.length → ¬ Pref (opn.drop i) rpl) :
    ∀ s, reSub opn cls rpl (reSub opn cls rpl s) = reSub opn cls rpl s := by
  have hOL : 1 ≤ opn.length := by
    cases opn with
    | nil => exact absurd rfl ho
    | cons a b => simp
  have hclsLen : cls.length ≤ rpl.length := by
    rw [hrpl, List.length_append, List.length_append]
    omega
  have haux : ∀ n s, s.length ≤ n →
      reSub opn cls rpl (reSub opn cls rpl s) = reSub opn cls rpl s := by
    intro n
    induction n with
    | zero =>
      intro s hs
      have hsn : s = [] := List.eq_nil_of_length_eq_zero (Nat.le_zero.mp hs)
      subst hsn
      rw [reSub_nil, reSub_nil]
    | succ n ih =>
      intro s hs
      cases s with
      | nil => rw [reSub_nil, reSub_nil]
      | cons c rest =>
        by_cases hopn : Pref opn (c :: rest)
        · cases hfc : findClose cls ((c :: rest).drop opn.length) with
          | some j =>
            rw [reSub_match cls rpl ho hopn hfc]
            have hXfix : reSub opn cls rpl (reSub opn cls rpl
                  ((c :: rest).drop (opn.length + j + cls.length)))
                = reSub opn cls rpl ((c :: rest).drop (opn.length + j + cls.length)) := by
              apply ih
              rw [List.length_drop]
              simp only [List.length_cons] at hs ⊢
              omega
            revert hXfix
            generalize reSub opn cls rpl ((c :: rest).drop (opn.length + j + cls.length)) = X
            intro hXfix
            have e1 : rpl ++ X = opn ++ (val ++ (cls ++ X)) := by
              rw [hrpl]
              simp only [List.append_assoc]
            have hfc2 : findClose cls ((opn ++ (val ++ (cls ++ X))).drop opn.length)
                = some val.length := by
              rw [drop_len_append]
              exact fc_val hc val X hnlv hvch
            rw [e1, reSub_match cls rpl ho (pref_append_self _ _) hfc2]
            have e2 : (opn ++ (val ++ (cls ++ X))).drop (opn.length + val.length + cls.length)
                = X := by
              rw [show opn ++ (val ++ (cls ++ X)) = ((opn ++ val) ++ cls) ++ X by
                simp only [List.append_assoc]]
              rw [show opn.length + val.length + cls.length = ((opn ++ val) ++ cls).length by
                rw [List.length_append, List.length_append]]
              exact drop_len_append _ X
            rw [e2, hXfix]
            exact e1
          | none =>
            obtain ⟨w, hw⟩ := hopn
            obtain ⟨o0, ot, rfl⟩ : ∃ o0 ot, opn = o0 :: ot := by
              cases opn with
              | nil => exact absurd rfl ho
              | cons a b => exact ⟨a, b, rfl⟩
            rw [List.cons_append] at hw
            injection hw with hco hrw
            subst hco
            subst hrw
            have e2 : ((c :: ot) ++ w).drop (c :: ot).length = w := drop_len_append _ _
            have hfcw : findClose cls w = none := by
              rw [← e2, List.cons_append]
              exact hfc
            have hskip : ∀ b, reSub (c :: ot) cls rpl (ot ++ b)
                = ot ++ reSub (c :: ot) cls rpl b := by
              intro b
              apply reSub_append_skip
              intro i hi
              cases hod : ot.drop i with
              | nil =>
                have hlod := congrArg List.length hod
                rw [List.length_drop] at hlod
                simp at hlod
                omega
              | cons d z =>
                rw [List.cons_append]
                have hdmem : d ∈ ot :=
                  List.drop_subset i ot (by rw [hod]; exact List.mem_cons_self d z)
                have hne : (c :: ot).head? ≠ some d := by
                  have := hoch d (by simpa using hdmem)
                  simpa using this
                exact pref_head_ne _ (by simp) hne
            have hX : findClose cls (reSub (c :: ot) cls rpl w) = none :=
              fc_reSub_none (c :: ot) cls rpl (by simp) hc hnlo hclsLen hcr
                w.length w le_rfl hfcw
            have hXidem : reSub (c :: ot) cls rpl (reSub (c :: ot) cls rpl w)
                = reSub (c :: ot) cls rpl w := by
              apply ih
              simp only [List.length_cons, List.length_append] at hs
              omega
            rw [reSub_cons_of (Or.inr hfc), hskip w]
            have h'' : findClose cls
                ((c :: (ot ++ reSub (c :: ot) cls rpl w)).drop (c :: ot).length) = none := by
              rw [← List.cons_append, drop_len_append]
              exact hX
            rw [reSub_cons_of (Or.inr h''), hskip (reSub (c :: ot) cls rpl w), hXidem]
        · rw [reSub_cons_of (Or.inl hopn)]
          have hT : reSub opn cls rpl (reSub opn cls rpl rest) = reSub opn cls rpl rest := by
            apply ih
            exact Nat.succ_le_succ_iff.mp (by simpa using hs)
          have hnp2 : ¬ Pref opn (c :: reSub opn cls rpl rest) := by
            intro hp
            obtain ⟨o0, ot, hoe⟩ : ∃ o0 ot, opn = o0 :: ot := by
              cases opn with
              | nil => exact absurd rfl ho
              | cons a b => exact ⟨a, b, rfl⟩
            subst hoe
            rcases pref_cons.mp hp with ⟨rfl, hot⟩
            by_cases h1 : ot = []
            · subst h1
              exact hopn (pref_cons.mpr ⟨rfl, pref_nil_left rest⟩)
            · have hcond : ∀ i, i < ot.length → ¬ Pref (ot.drop i) rpl := by
                intro i hi
                have := hor (i + 1) (Nat.le_add_left 1 i) (by simpa using hi)
                simpa using this
              have hlen2 : ot.length < rpl.length := by
                rw [hrpl]
                simp only [List.length_append, List.length_cons]
                omega
              have hr := pref_reSub_aux (o0 :: ot) cls rpl (by simp) rest.length rest ot
                le_rfl h1 hlen2 hcond hot
              exact hopn (pref_cons.mpr ⟨rfl, hr⟩)
          rw [reSub_cons_of (Or.inl hnp2), hT]
  intro s
  exact haux s.length s le_rfl

/-! ### Dictionary lemmas -/

theorem mem_setKey {d : List (List Char × List Char)} {k v : List Char}
    {nv : List Char × List Char} (h : nv ∈ setKey d k v) : nv = (k, v) ∨ nv ∈ d := by
  induction d with
  | nil =>
    simp only [setKey, List.mem_singleton] at h
    exact Or.inl h
  | cons hd rest ih =>
    simp only [setKey] at h
    split at h
    · rcases List.mem_cons.mp h with h' | h'
      · exact Or.inl h'
      · exact Or.inr (List.mem_cons_of_mem hd h')
    · rcases List.mem_cons.mp h with h' | h'
      · exact Or.inr (h' ▸ List.mem_cons_self hd rest)
      · rcases ih h' with h'' | h''
        · exact Or.inl h''
        · exact Or.inr (List.mem_cons_of_mem hd h'')

theorem lookup_setKey_self (d : List (List Char × List Char)) (k v : List Char) :
    lookupKey (setKey d k v) k = some v := by
  induction d with
  | nil => simp [setKey, lookupKey]
  | cons hd rest ih =>
    obtain ⟨k0, v0⟩ := hd
    simp only [setKey]
    by_cases he : k0 = k
    · rw [if_pos he]
      simp [lookupKey]
    · rw [if_neg he]
      simp only [lookupKey]
      rw [if_neg he]
      exact ih

theorem lookup_setKey_ne (d : List (List Char × List Char)) (k v k' : List Char)
    (h : k' ≠ k) : lookupKey (setKey d k v) k' = lookupKey d k' := by
  induction d with
  | nil =>
    simp only [setKey, lookupKey]
    rw [if_neg (fun he => h he.symm)]
  | cons hd rest ih =>
    obtain ⟨k0, v0⟩ := hd
    simp only [setKey]
    by_cases he : k0 = k
    · rw [if_pos he]
      simp only [lookupKey]
      rw [if_neg (fun hx => h hx.symm), if_neg (fun hx : k0 = k' => h (by rw [← hx]; exact he))]
    · rw [if_neg he]
      simp only [lookupKey]
      by_cases he2 : k0 = k'
      · rw [if_pos he2, if_pos he2]
      · rw [if_neg he2, if_neg he2]
        exact ih

theorem lookup_mem {α : Type} {d : List (List Char × α)} {k : List Char} {v : α}
    (h : lookupKey d k = some v) : (k, v) ∈ d := by
  induction d with
  | nil => simp [lookupKey] at h
  | cons hd rest ih =>
    simp only [lookupKey] at h
    split at h
    · rename_i heq
      injection h with h'
      rw [← heq, ← h']
      exact List.mem_cons_self hd rest
    · exact List.mem_cons_of_mem hd (ih h)

/-- All cross-pair side conditions between the literal search patterns and
replacement strings of the colors loop hold. -/
theorem admissible_sideCond :
    (colorNames.all fun n => admissibleColorPairs.all fun b =>
      sideCond (colorPat n) (colorRepl b.1 b.2)) = true := by decide

theorem adm_name_mem : ∀ nv ∈ admissibleColorPairs, nv.1 ∈ colorNames := by decide

theorem sideCond_of_adm {n : List Char} {nv : List Char × List Char}
    (hn : n ∈ colorNames) (hnv : nv ∈ admissibleColorPairs) :
    sideCond (colorPat n) (colorRepl nv.1 nv.2) = true := by
  have h := admissible_sideCond
  rw [List.all_eq_true] at h
  have h2 := h n hn
  rw [List.all_eq_true] at h2
  exact h2 nv hnv

theorem colorPat_ne_nil (n : List Char) : colorPat n ≠ [] := by
  simp [colorPat, colorTag]

theorem occ_tag_of_occ_pat {n c : List Char} (h : Occ (colorPat n) c) : Occ (colorTag n) c :=
  occ_append_left h

theorem applyColors_cons (nv : List Char × List Char) (L : List (List Char × List Char))
    (c : List Char) : applyColors (nv :: L) c = applyColors L (applyColorsStep c nv) := rfl

theorem applyColors_preserve (q : List Char) :
    ∀ L c, (∀ nv ∈ L, sideCond q (colorRepl nv.1 nv.2) = true) →
      ¬ Occ q c → ¬ Occ q (applyColors L c) := by
  intro L
  induction L with
  | nil => exact fun c _ h => h
  | cons nv L ih =>
    intro c hsc hno
    rw [applyColors_cons]
    apply ih _ (fun x hx => hsc x (List.mem_cons_of_mem nv hx))
    unfold applyColorsStep
    by_cases hg : containsSub (colorTag nv.1) c = true
    · rw [if_pos hg]
      exact not_occ_replaceAll_of_sideCond (colorPat_ne_nil nv.1)
        (hsc nv (List.mem_cons_self nv L)) c (Or.inr hno)
    · rw [if_neg hg]
      exact hno

theorem applyColors_not_occ_self :
    ∀ L c nv, (∀ x ∈ L, x ∈ admissibleColorPairs) → nv ∈ L →
      ¬ Occ (colorPat nv.1) (applyColors L c) := by
  intro L
  induction L with
  | nil => exact fun c nv _ h => absurd h (List.not_mem_nil nv)
  | cons hd L ih =>
    intro c nv hadm hmem
    rcases List.mem_cons.mp hmem with rfl | hmem'
    · rw [applyColors_cons]
      apply applyColors_preserve _ L _ (fun x hx =>
        sideCond_of_adm (adm_name_mem nv (hadm nv (List.mem_cons_self nv L)))
          (hadm x (List.mem_cons_of_mem nv hx)))
      unfold applyColorsStep
      by_cases hg : containsSub (colorTag nv.1) c = true
      · rw [if_pos hg]
        exact not_occ_replaceAll_of_sideCond (colorPat_ne_nil nv.1)
          (sideCond_of_adm (adm_name_mem nv (hadm nv (List.mem_cons_self nv L)))
            (hadm nv (List.mem_cons_self nv L))) c (Or.inl rfl)
      · rw [if_neg hg]
        intro ho
        exact hg (occ_iff.mpr (occ_tag_of_occ_pat ho))
    · rw [applyColors_cons]
      exact ih _ nv (fun x hx => hadm x (List.mem_cons_of_mem hd hx)) hmem'

theorem applyColors_id_of_no_occ :
    ∀ L c, (∀ nv ∈ L, ¬ Occ (colorPat nv.1) c) → applyColors L c = c := by
  intro L
  induction L with
  | nil => exact fun c _ => rfl
  | cons nv L ih =>
    intro c hno
    rw [applyColors_cons]
    have hstep : applyColorsStep c nv = c := by
      unfold applyColorsStep
      by_cases hg : containsSub (colorTag nv.1) c = true
      · rw [if_pos hg]
        exact replaceAll_of_not_occ _ (hno nv (List.mem_cons_self nv L))
      · rw [if_neg hg]
    rw [hstep]
    exact ih c (fun x hx => hno x (List.mem_cons_of_mem nv hx))

/-- The colors loop of `apply_gui_modifications` is idempotent on every file
content, for every colors dict the compiler can produce. -/
theorem applyColors_idem (L : List (List Char × List Char))
    (hadm : ∀ x ∈ L, x ∈ admissibleColorPairs) (c : List Char) :
    applyColors L (applyColors L c) = applyColors L c :=
  applyColors_id_of_no_occ L _ (fun nv hm => applyColors_not_occ_self L c nv hadm hm)

/-! ### What the compiler can produce -/

theorem knobColors_sub {low : List Char} {d : List (List Char × List Char)}
    {nv : List Char × List Char} (h : nv ∈ knobColors low d) :
    nv ∈ admissibleColorPairs ∨ nv ∈ d := by
  unfold knobColors at h
  repeat' split at h
  all_goals
    first
      | exact Or.inr h
      | exact (mem_setKey h).elim (fun he => Or.inl (by rw [he]; decide)) Or.inr

theorem glowColors_sub {low : List Char} {d : List (List Char × List Char)}
    {nv : List Char × List Char} (h : nv ∈ glowColors low d) :
    nv ∈ admissibleColorPairs ∨ nv ∈ d := by
  unfold glowColors at h
  repeat' split at h
  all_goals
    first
      | exact Or.inr h
      | exact (mem_setKey h).elim (fun he => Or.inl (by rw [he]; decide)) Or.inr

theorem connColors_sub {low : List Char} {d : List (List Char × List Char)}
    {nv : List Char × List Char} (h : nv ∈ connColors low d) :
    nv ∈ admissibleColorPairs ∨ nv ∈ d := by
  unfold connColors at h
  repeat' split at h
  all_goals
    first
      | exact Or.inr h
      | exact (mem_setKey h).elim (fun he => Or.inl (by rw [he]; decide)) Or.inr

theorem buttonColors_sub {low : List Char} {d : List (List Char × List Char)}
    {nv : List Char × List Char} (h : nv ∈ buttonColors low d) :
    nv ∈ admissibleColorPairs ∨ nv ∈ d := by
  unfold buttonColors at h
  repeat' split at h
  all_goals
    first
      | exact Or.inr h
      | exact (mem_setKey h).elim (fun he => Or.inl (by rw [he]; decide)) Or.inr

theorem schemeColors_adm (scheme : List Char) :
    ∀ nv ∈ schemeColors scheme, nv ∈ admissibleColorPairs := by
  intro nv h
  unfold schemeColors at h
  split at h
  · cases hl : lookupKey colorSchemes scheme with
    | none =>
      rw [hl] at h
      exact absurd h (List.not_mem_nil nv)
    | some t =>
      rw [hl] at h
      have hmem := lookup_mem hl
      have hd : ∀ st ∈ colorSchemes, ∀ x ∈
          [("primary".toList, st.2.1), ("secondary".toList, st.2.2.1),
           ("accent".toList, st.2.2.2)], x ∈ admissibleColorPairs := by decide
      exact hd (scheme, t) hmem nv h
  · exact absurd h (List.not_mem_nil nv)

/-- Every entry of a compiled `modifications['colors']` dict is one of the
finitely many admissible pairs. -/
theorem genMods_colors_adm (desc scheme : List Char) :
    ∀ nv ∈ (genMods desc scheme).colors, nv ∈ admissibleColorPairs := by
  intro nv h
  have h0 : nv ∈ buttonColors (lowerStr desc) (connColors (lowerStr desc)
      (glowColors (lowerStr desc) (knobColors (lowerStr desc) (schemeColors scheme)))) := h
  rcases buttonColors_sub h0 with ha | h1
  · exact ha
  rcases connColors_sub h1 with ha | h2
  · exact ha
  rcases glowColors_sub h2 with ha | h3
  · exact ha
  rcases knobColors_sub h3 with ha | h4
  · exact ha
  exact schemeColors_adm scheme nv h4

theorem genMods_strings_cases (desc scheme : List Char) :
    (genMods desc scheme).strings = [] ∨
    (genMods desc scheme).strings = [("connection_status".toList, "Connected".toList)] ∨
    (genMods desc scheme).strings = [("connection_status".toList, "Disconnected".toList)] := by
  have he : (genMods desc scheme).strings = connStrings (lowerStr desc) [] := rfl
  rw [he]
  unfold connStrings
  split
  · split
    · exact Or.inr (Or.inl rfl)
    · split
      · exact Or.inr (Or.inr rfl)
      · exact Or.inl rfl
  · exact Or.inl rfl

theorem reSub_idem_of_cond (opn cls val : List Char) (h : reSubCond opn cls val = true) :
    ∀ s, reSub opn cls (opn ++ val ++ cls) (reSub opn cls (opn ++ val ++ cls) s)
      = reSub opn cls (opn ++ val ++ cls) s := by
  simp only [reSubCond, Bool.and_eq_true, List.all_eq_true, List.mem_range,
    Bool.or_eq_true, Bool.not_eq_true', decide_eq_true_eq] at h
  obtain ⟨⟨⟨⟨⟨⟨⟨h1, h2⟩, h3⟩, h4⟩, h5⟩, h6⟩, h7⟩, h8⟩ := h
  refine reSub_idem opn cls val (opn ++ val ++ cls) rfl h1 h2 ?_ ?_ h5 h6 ?_ ?_
  · intro hm
    exact h3 '\n' hm rfl
  · intro hm
    exact h4 '\n' hm rfl
  · intro i hi1 hi2 hp
    rcases h7 i hi2 with h' | h'
    · omega
    · have hb := pref_iff.mpr hp
      rw [h'] at hb
      exact Bool.false_ne_true hb
  · intro i hi1 hi2 hp
    rcases h8 i hi2 with h' | h'
    · omega
    · have hb := pref_iff.mpr hp
      rw [h'] at hb
      exact Bool.false_ne_true hb

theorem connStr_cond :
    reSubCond (stringTag "connection_status".toList) stringCloseTag "Connected".toList
      = true := by decide

theorem disconnStr_cond :
    reSubCond (stringTag "connection_status".toList) stringCloseTag "Disconnected".toList
      = true := by decide

theorem applyStringsStep_idem (nv : List Char × List Char)
    (hcond : reSubCond (stringTag nv.1) stringCloseTag nv.2 = true) (c : List Char) :
    applyStringsStep (applyStringsStep c nv) nv = applyStringsStep c nv := by
  unfold applyStringsStep
  by_cases hg : containsSub (stringTag nv.1) c = true
  · rw [if_pos hg]
    by_cases hg2 : containsSub (stringTag nv.1)
        (reSub (stringTag nv.1) stringCloseTag
          (stringTag nv.1 ++ nv.2 ++ stringCloseTag) c) = true
    · rw [if_pos hg2]
      exact reSub_idem_of_cond _ _ _ hcond c
    · rw [if_neg hg2]
  · rw [if_neg hg, if_neg hg]

theorem applyStrings_idem_cases (L : List (List Char × List Char))
    (hL : L = [] ∨ ∃ nv, L = [nv] ∧
      reSubCond (stringTag nv.1) stringCloseTag nv.2 = true) (c : List Char) :
    applyStrings L (applyStrings L c) = applyStrings L c := by
  rcases hL with rfl | ⟨nv, rfl, hcond⟩
  · rfl
  · exact applyStringsStep_idem nv hcond c

/-! ### Idempotence of the layouts pass -/

theorem sc_14_18 : sideCond sz14 sz18 = true := by decide

theorem sc_14_20 : sideCond sz14 sz20 = true := by decide

theorem sc_16_20 : sideCond sz16 sz20 = true := by decide

theorem sc_16_12 : sideCond sz16 sz12 = true := by decide

theorem sc_16_14 : sideCond sz16 sz14 = true := by decide

theorem sc_18_14 : sideCond sz18 sz14 = true := by decide

theorem applyTextSize_idem (sz c : List Char) :
    applyTextSize sz (applyTextSize sz c) = applyTextSize sz c := by
  by_cases hL : sz = "large".toList
  · simp only [applyTextSize, if_pos hL]
    have hin : ¬ Occ sz14 (replaceAll sz14 sz18 c) :=
      not_occ_replaceAll_of_sideCond (by decide) sc_14_18 c (Or.inl rfl)
    have h14 : ¬ Occ sz14 (replaceAll sz16 sz20 (replaceAll sz14 sz18 c)) :=
      not_occ_replaceAll_of_sideCond (by decide) sc_14_20 _ (Or.inr hin)
    have h16 : ¬ Occ sz16 (replaceAll sz16 sz20 (replaceAll sz14 sz18 c)) :=
      not_occ_replaceAll_of_sideCond (by decide) sc_16_20 _ (Or.inl rfl)
    rw [replaceAll_of_not_occ sz18 h14, replaceAll_of_not_occ sz20 h16]
  · by_cases hS : sz = "small".toList
    · simp only [applyTextSize, if_neg hL, if_pos hS]
      have hin : ¬ Occ sz16 (replaceAll sz16 sz12 c) :=
        not_occ_replaceAll_of_sideCond (by decide) sc_16_12 c (Or.inl rfl)
      have h16 : ¬ Occ sz16 (replaceAll sz18 sz14 (replaceAll sz16 sz12 c)) :=
        not_occ_replaceAll_of_sideCond (by decide) sc_16_14 _ (Or.inr hin)
      have h18 : ¬ Occ sz18 (replaceAll sz18 sz14 (replaceAll sz16 sz12 c)) :=
        not_occ_replaceAll_of_sideCond (by decide) sc_18_14 _ (Or.inl rfl)
      rw [replaceAll_of_not_occ sz12 h16, replaceAll_of_not_occ sz14 h18]
    · simp only [applyTextSize, if_neg hL, if_neg hS]

theorem applyLayoutFile_idem (layouts : List (List Char × List Char)) (c : List Char) :
    applyLayoutFile layouts (applyLayoutFile layouts c) = applyLayoutFile layouts c := by
  unfold applyLayoutFile
  cases h : lookupKey layouts "text_size".toList with
  | none => rfl
  | some sz => exact applyTextSize_idem sz c

theorem map_layout_idem (lay : List (List Char × List Char)) (files : List (List Char)) :
    (files.map (applyLayoutFile lay)).map (applyLayoutFile lay)
      = files.map (applyLayoutFile lay) := by
  induction files with
  | nil => rfl
  | cons f fs ih => simp [applyLayoutFile_idem lay f, ih]

/-! ### Idempotence of the whole apply pass -/

theorem treeExt {a b : ResourceTree} (h1 : a.colorsFile = b.colorsFile)
    (h2 : a.stringsFile = b.stringsFile) (h3 : a.layoutFiles = b.layoutFiles) : a = b := by
  cases a
  cases b
  simp_all

theorem applyMods_colorsFile (m : Mods) (t : ResourceTree) :
    (applyMods m t).colorsFile =
      if m.colors ≠ [] then t.colorsFile.map (applyColors m.colors) else t.colorsFile := by
  unfold applyMods
  by_cases hc : m.colors ≠ [] <;> by_cases hs : m.strings ≠ [] <;>
    by_cases hl : m.layouts ≠ [] <;> simp [hc, hs, hl]

theorem applyMods_stringsFile (m : Mods) (t : ResourceTree) :
    (applyMods m t).stringsFile =
      if m.strings ≠ [] then t.stringsFile.map (applyStrings m.strings) else t.stringsFile := by
  unfold applyMods
  by_cases hc : m.colors ≠ [] <;> by_cases hs : m.strings ≠ [] <;>
    by_cases hl : m.layouts ≠ [] <;> simp [hc, hs, hl]

theorem applyMods_layoutFiles (m : Mods) (t : ResourceTree) :
    (applyMods m t).layoutFiles =
      if m.layouts ≠ [] then t.layoutFiles.map (applyLayoutFile m.layouts)
      else t.layoutFiles := by
  unfold applyMods
  by_cases hc : m.colors ≠ [] <;> by_cases hs : m.strings ≠ [] <;>
    by_cases hl : m.layouts ≠ [] <;> simp [hc, hs, hl]

/-- Idempotence of `apply_gui_modifications` for every modifications dict the
compiler can produce, on every resource tree. -/
theorem applyMods_idem (m : Mods)
    (hadm : ∀ x ∈ m.colors, x ∈ admissibleColorPairs)
    (hstr : m.strings = [] ∨ ∃ nv, m.strings = [nv] ∧
      reSubCond (stringTag nv.1) stringCloseTag nv.2 = true)
    (t : ResourceTree) : applyMods m (applyMods m t) = applyMods m t := by
  apply treeExt
  · rw [applyMods_colorsFile, applyMods_colorsFile]
    by_cases hc : m.colors ≠ []
    · simp only [if_pos hc]
      cases t.colorsFile with
      | none => rfl
      | some c => simp [applyColors_idem m.colors hadm c]
    · simp only [if_neg hc]
  · rw [applyMods_stringsFile, applyMods_stringsFile]
    by_cases hs : m.strings ≠ []
    · simp only [if_pos hs]
      cases t.stringsFile with
      | none => rfl
      | some c => simp [applyStrings_idem_cases m.strings hstr c]
    · simp only [if_neg hs]
  · rw [applyMods_layoutFiles, applyMods_layoutFiles]
    by_cases hl : m.layouts ≠ []
    · simp only [if_pos hl]
      exact map_layout_idem m.layouts t.layoutFiles
    · simp only [if_neg hl]

/-! ### Lookup lemmas for the keyword rules -/

theorem knobColors_lookup_ne (low : List Char) (d : List (List Char × List Char))
    (k : List Char) (h : k ≠ "control_color".toList) :
    lookupKey (knobColors low d) k = lookupKey d k := by
  unfold knobColors
  repeat' split
  all_goals first
    | rfl
    | exact lookup_setKey_ne _ _ _ _ h

theorem glowColors_lookup_ne (low : List Char) (d : List (List Char × List Char))
    (k : List Char) (h : k ≠ "glow_color".toList) :
    lookupKey (glowColors low d) k = lookupKey d k := by
  unfold glowColors
  repeat' split
  all_goals first
    | rfl
    | exact lookup_setKey_ne _ _ _ _ h

theorem connColors_lookup_ne (low : List Char) (d : List (List Char × List Char))
    (k : List Char) (h : k ≠ "status_color".toList) :
    lookupKey (connColors low d) k = lookupKey d k := by
  unfold connColors
  repeat' split
  all_goals first
    | rfl
    | exact lookup_setKey_ne _ _ _ _ h

theorem buttonColors_blue (low : List Char) (d : List (List Char × List Char))
    (hb : containsSub "button".toList low = true)
    (hbl : containsSub "blue".toList low = true) :
    buttonColors low d = setKey d "button_color".toList "#007bff".toList := by
  unfold buttonColors
  rw [if_pos hb, if_pos hbl]

theorem textLayouts_large (low : List Char) (d : List (List Char × List Char))
    (ht : containsSub "text".toList low = true)
    (hbig : containsSub "bigger".toList low = true) :
    textLayouts low d = setKey d "text_size".toList "large".toList := by
  unfold textLayouts
  rw [if_pos ht, if_pos (by rw [hbig]; rfl : (containsSub "bigger".toList low
    || containsSub "larger".toList low) = true)]

/-! ### The claims -/

/-- Claim C1 (code bug): the colors branch of `apply_gui_modifications` is a
no-op on an ordinary `colors.xml`.  The declaration `primary` is present
(its tag occurs in the file), the instruction carries the new value
`#007bff`, yet applying the patch leaves the file byte-identical: the old
value `#123456` is still there and the new value never appears, because the
source passes the regex fragment `#[0-9A-Fa-f]{6}` as a *literal* string to
`str.replace` instead of using `re.sub` as the strings branch does. -/
theorem C1_color_patch_noop :
    applyColors [("primary".toList, "#007bff".toList)] sampleColorsXml = sampleColorsXml ∧
    containsSub (colorTag "primary".toList) sampleColorsXml = true ∧
    containsSub "#123456".toList
      (applyColors [("primary".toList, "#007bff".toList)] sampleColorsXml) = true ∧
    containsSub "#007bff".toList
      (applyColors [("primary".toList, "#007bff".toList)] sampleColorsXml) = false :=
  ⟨by decide, by decide, by decide, by decide⟩

/-- Claim C2: applying a compiler-produced patch set twice leaves the
resource tree byte-identical to applying it once — the second pass is a
no-op, for every description, every colour scheme and every resource tree;
in particular this covers the layout text-size rewrites and the string
rewrites. -/
theorem C2_apply_idempotent (desc scheme : List Char) (t : ResourceTree) :
    applyMods (genMods desc scheme) (applyMods (genMods desc scheme) t)
      = applyMods (genMods desc scheme) t := by
  apply applyMods_idem
  · exact genMods_colors_adm desc scheme
  · rcases genMods_strings_cases desc scheme with h | h | h
    · exact Or.inl h
    · exact Or.inr ⟨_, h, connStr_cond⟩
    · exact Or.inr ⟨_, h, disconnStr_cond⟩

/-- Claim C3 counterexample: applying a patch set whose only instruction
targets the undeclared color `button_color` produces a result that is
*indistinguishable* from applying a patch set with no instructions at all —
both return the unchanged tree and the bare success flag `True`.  The code
reports no `appliedCount` and no `skippedKeys`: its only output is a
boolean, so the requested mutation is dropped without any record. -/
theorem C3_counterexample :
    applyGuiModifications (genMods "blue button".toList []) sampleTreeC3
      = applyGuiModifications (genMods "hello".toList []) sampleTreeC3 ∧
    applyGuiModifications (genMods "blue button".toList []) sampleTreeC3
      = (sampleTreeC3, true) ∧
    (genMods "blue button".toList []).colors
      = [("button_color".toList, "#007bff".toList)] :=
  ⟨by decide, by decide, by decide⟩

/-- Claim C3 amended: applying a patch set whose color keys are all
undeclared in the colors file does not raise, leaves the tree byte-identical
and returns the bare success flag `True`; the skip is silent — the code has
no `appliedCount` and no `skippedKeys` in its result. -/
theorem C3_missing_key_silent (m : Mods) (t : ResourceTree) (c : List Char)
    (hstr : m.strings = []) (hlay : m.layouts = [])
    (hcf : t.colorsFile = some c)
    (hmiss : ∀ nv ∈ m.colors, containsSub (colorTag nv.1) c = false) :
    applyGuiModifications m t = (t, true) := by
  unfold applyGuiModifications
  have hmt : applyMods m t = t := by
    apply treeExt
    · rw [applyMods_colorsFile]
      by_cases hc : m.colors ≠ []
      · rw [if_pos hc, hcf]
        have hid : applyColors m.colors c = c := by
          apply applyColors_id_of_no_occ
          intro nv hm ho
          have hb := occ_iff.mpr (occ_tag_of_occ_pat ho)
          rw [hmiss nv hm] at hb
          exact Bool.false_ne_true hb
        simp [hid]
      · rw [if_neg hc]
    · rw [applyMods_stringsFile, hstr]
      simp
    · rw [applyMods_layoutFiles, hlay]
      simp
  rw [hmt]

/-- Witness for the amended C3 at the concrete missing-key input. -/
theorem C3_witness :
    applyGuiModifications (genMods "blue button".toList []) sampleTreeC3
      = (sampleTreeC3, true) :=
  C3_missing_key_silent _ _ sampleColorsXml (by decide) (by decide) rfl (by decide)

/-- Claim C4 counterexample: a non-empty patch set applied to a resource
tree with no colors file, no strings file and no layout files (the missing
`resourceRoot` case: every `os.path.exists` test fails) reports plain
success (`True`) with the tree unchanged, instead of failing with a
resource-tree error. -/
theorem C4_counterexample :
    applyGuiModifications (genMods "make the button blue".toList []) emptyTree
      = (emptyTree, true) ∧
    (genMods "make the button blue".toList []).colors ≠ [] :=
  ⟨by decide, by decide⟩

/-- Claim C4 amended: `apply_gui_modifications` on a missing resource tree
succeeds trivially — every patch set returns `True` with the (empty) tree
unchanged; missing files are skipped, not fatal.  (The route's `False`
branch is reached only when an OS exception escapes a file access.) -/
theorem C4_missing_tree_success (m : Mods) :
    applyGuiModifications m emptyTree = (emptyTree, true) := by
  unfold applyGuiModifications
  have hmt : applyMods m emptyTree = emptyTree := by
    apply treeExt
    · rw [applyMods_colorsFile]
      by_cases hc : m.colors ≠ [] <;> simp [hc, emptyTree]
    · rw [applyMods_stringsFile]
      by_cases hs : m.strings ≠ [] <;> simp [hs, emptyTree]
    · rw [applyMods_layoutFiles]
      by_cases hl : m.layouts ≠ [] <;> simp [hl, emptyTree]
  rw [hmt]

/-- Claim C5: each of the seven recognized scheme names, with an empty
description, expands to exactly the three Color instructions primary,
secondary, accent with the fixed hex values of the lookup table; an
unrecognized scheme name contributes no Color instructions. -/
theorem C5_scheme_expansion :
    (∀ nv ∈ colorSchemes, (genMods [] nv.1).colors =
        [("primary".toList, nv.2.1), ("secondary".toList, nv.2.2.1),
         ("accent".toList, nv.2.2.2)] ∧
      (genMods [] nv.1).colors.length = 3) ∧
    (∀ scheme, lookupKey colorSchemes scheme = none → (genMods [] scheme).colors = []) := by
  constructor
  · intro nv h
    simp only [colorSchemes, List.mem_cons, List.mem_singleton] at h
    rcases h with rfl | rfl | rfl | rfl | rfl | rfl | rfl | h
    · exact ⟨by decide, by decide⟩
    · exact ⟨by decide, by decide⟩
    · exact ⟨by decide, by decide⟩
    · exact ⟨by decide, by decide⟩
    · exact ⟨by decide, by decide⟩
    · exact ⟨by decide, by decide⟩
    · exact ⟨by decide, by decide⟩
    · exact absurd h (List.not_mem_nil nv)
  · intro scheme h
    have e : (genMods [] scheme).colors = buttonColors (lowerStr []) (connColors (lowerStr [])
        (glowColors (lowerStr []) (knobColors (lowerStr []) (schemeColors scheme)))) := rfl
    rw [e]
    have h0 : schemeColors scheme = [] := by
      unfold schemeColors
      split
      · rw [h]
      · rfl
    rw [h0]
    rfl

/-- Witness for C5 at the scheme `blue` and the unrecognized scheme `teal`. -/
theorem C5_witness :
    (genMods [] "blue".toList).colors =
      [("primary".toList, "#007bff".toList), ("secondary".toList, "#6c757d".toList),
       ("accent".toList, "#17a2b8".toList)] ∧
    (genMods [] "teal".toList).colors = [] :=
  ⟨(C5_scheme_expansion.1 ("blue".toList,
      ("#007bff".toList, "#6c757d".toList, "#17a2b8".toList)) (by decide)).1,
   C5_scheme_expansion.2 "teal".toList (by decide)⟩

/-- Claim C9 counterexample: with both `green` and `blue` next to `button`,
and `green` first in the text, the emitted instruction is `#007bff` — the
*earliest-declared* branch of the `if`/`elif` chain (blue) wins, not the
later-declared one (green, `#28a745`) the claim predicts; and exactly one
button instruction is emitted. -/
theorem C9_counterexample :
    (genMods "green blue button".toList []).colors
      = [("button_color".toList, "#007bff".toList)] ∧
    "#007bff".toList ≠ "#28a745".toList :=
  ⟨by decide, by decide⟩

/-- Claim C7: when the collaborator reports success but the artifact on disk
is smaller than the fixed 1024-byte threshold, the orchestrator reports the
invalid-file failure, stamps no compiled metadata, and the project record
(and with it its state) keeps its prior value. -/
theorem C7_small_artifact_rejected (meta : ProjectMeta) (a : BuildArtifact)
    (now : List Char) (hdisk : a.onDisk = true) (hsize : a.sizeBytes < 1024) :
    compileApkStep (some meta) (some a) now = (some meta, CompileOutcome.invalidFile) := by
  simp [compileApkStep, hdisk, hsize]

/-- Witness for C7 at the spec's scenario: a 500-byte artifact. -/
theorem C7_witness :
    compileApkStep (some sampleMeta) (some { onDisk := true, sizeBytes := 500 })
      "t0".toList = (some sampleMeta, CompileOutcome.invalidFile) :=
  C7_small_artifact_rejected sampleMeta { onDisk := true, sizeBytes := 500 }
    "t0".toList rfl (by decide)

/-- Claim C8: signing a project with no existing compiled artifact returns
the 400 invalid-input error, never invokes the signing collaborator (the
`Bool` component is `false`), and leaves the project record unchanged. -/
theorem C8_sign_requires_compiled (meta : ProjectMeta) (art : Option BuildArtifact)
    (signOk : Bool) (now : List Char)
    (hart : art = none ∨ ∃ a, art = some a ∧ a.onDisk = false) :
    signApkStep (some meta) art signOk now = (some meta, SignOutcome.inputError, false) := by
  rcases hart with rfl | ⟨a, rfl, hd⟩
  · rfl
  · simp [signApkStep, hd]

/-- Witness for C8 with no compiled artifact at all. -/
theorem C8_witness :
    signApkStep (some sampleMeta) none true "t0".toList
      = (some sampleMeta, SignOutcome.inputError, false) :=
  C8_sign_requires_compiled sampleMeta none true "t0".toList (Or.inl rfl)

/-- Claim C10: a save-resource request whose kind is outside
image/string/layout performs no collaborator write, stamps no metadata, and
completes normally (outcome `skipped`, no exception path involved). -/
theorem C10_unknown_kind_noop (kind : List Char) (imageProvided saveOk : Bool)
    (content : List Char) (meta : ProjectMeta) (now rpath : List Char)
    (h1 : kind ≠ "image".toList) (h2 : kind ≠ "string".toList)
    (h3 : kind ≠ "layout".toList) :
    saveResourceStep kind imageProvided saveOk content meta now rpath
      = (meta, [], SaveOutcome.skipped) := by
  unfold saveResourceStep
  rw [if_neg h1, if_neg h2, if_neg h3]

/-- Witness for C10 at the unknown kind `font`. -/
theorem C10_witness :
    saveResourceStep "font".toList true true [] sampleMeta [] []
      = (sampleMeta, [], SaveOutcome.skipped) :=
  C10_unknown_kind_noop "font".toList true true [] sampleMeta [] []
    (by decide) (by decide) (by decide)

/-- Empty-dict lookup. -/
theorem lookup_nil (k : List Char) : lookupKey ([] : List (List Char × List Char)) k = none := rfl

theorem buttonColors_lookup_ne (low : List Char) (d : List (List Char × List Char))
    (k : List Char) (h : k ≠ "button_color".toList) :
    lookupKey (buttonColors low d) k = lookupKey d k := by
  unfold buttonColors
  repeat' split
  all_goals first
    | rfl
    | exact lookup_setKey_ne _ _ _ _ h

theorem dpadLayouts_lookup_ne (low : List Char) (d : List (List Char × List Char))
    (k : List Char) (h : k ≠ "dpad_size".toList) :
    lookupKey (dpadLayouts low d) k = lookupKey d k := by
  unfold dpadLayouts
  repeat' split
  all_goals first
    | rfl
    | exact lookup_setKey_ne _ _ _ _ h

theorem textLayouts_lookup_ne (low : List Char) (d : List (List Char × List Char))
    (k : List Char) (h : k ≠ "text_size".toList) :
    lookupKey (textLayouts low d) k = lookupKey d k := by
  unfold textLayouts
  repeat' split
  all_goals first
    | rfl
    | exact lookup_setKey_ne _ _ _ _ h

/-- Full characterization of the control-knob rule's contribution: the
`control_color` entry after the rule is exactly the first matching branch of
its `if`/`elif` modifier chain, and the rule touches nothing when its
trigger is absent. -/
theorem knobColors_lookup_cc (low : List Char) (d : List (List Char × List Char)) :
    lookupKey (knobColors low d) "control_color".toList =
      if (containsSub "knob".toList low || containsSub "control".toList low) = true then
        if containsSub "blue".toList low = true then some "#007bff".toList
        else if containsSub "green".toList low = true then some "#28a745".toList
        else if containsSub "red".toList low = true then some "#dc3545".toList
        else if containsSub "orange".toList low = true then some "#fd7e14".toList
        else lookupKey d "control_color".toList
      else lookupKey d "control_color".toList := by
  unfold knobColors
  split_ifs
  all_goals first
    | rw [lookup_setKey_self]
    | rfl

/-- Full characterization of the glow rule's `glow_color` contribution. -/
theorem glowColors_lookup_gc (low : List Char) (d : List (List Char × List Char)) :
    lookupKey (glowColors low d) "glow_color".toList =
      if (containsSub "glow".toList low || containsSub "light".toList low) = true then
        if containsSub "blue".toList low = true then some "#007bff".toList
        else if containsSub "green".toList low = true then some "#28a745".toList
        else if containsSub "red".toList low = true then some "#dc3545".toList
        else lookupKey d "glow_color".toList
      else lookupKey d "glow_color".toList := by
  unfold glowColors
  split_ifs
  all_goals first
    | rw [lookup_setKey_self]
    | rfl

/-- Full characterization of the connection rule's `status_color`
contribution. -/
theorem connColors_lookup_sc (low : List Char) (d : List (List Char × List Char)) :
    lookupKey (connColors low d) "status_color".toList =
      if (containsSub "connection".toList low || containsSub "status".toList low) = true then
        if containsSub "connected".toList low = true then some "#28a745".toList
        else if containsSub "disconnected".toList low = true then some "#dc3545".toList
        else lookupKey d "status_color".toList
      else lookupKey d "status_color".toList := by
  unfold connColors
  split_ifs
  all_goals first
    | rw [lookup_setKey_self]
    | rfl

/-- Full characterization of the connection rule's `connection_status`
string contribution. -/
theorem connStrings_lookup_cs (low : List Char) (d : List (List Char × List Char)) :
    lookupKey (connStrings low d) "connection_status".toList =
      if (containsSub "connection".toList low || containsSub "status".toList low) = true then
        if containsSub "connected".toList low = true then some "Connected".toList
        else if containsSub "disconnected".toList low = true then some "Disconnected".toList
        else lookupKey d "connection_status".toList
      else lookupKey d "connection_status".toList := by
  unfold connStrings
  split_ifs
  all_goals first
    | rw [lookup_setKey_self]
    | rfl

/-- Full characterization of the button rule's `button_color` contribution. -/
theorem buttonColors_lookup_bc (low : List Char) (d : List (List Char × List Char)) :
    lookupKey (buttonColors low d) "button_color".toList =
      if containsSub "button".toList low = true then
        if containsSub "blue".toList low = true then some "#007bff".toList
        else if containsSub "green".toList low = true then some "#28a745".toList
        else if containsSub "red".toList low = true then some "#dc3545".toList
        else lookupKey d "button_color".toList
      else lookupKey d "button_color".toList := by
  unfold buttonColors
  split_ifs
  all_goals first
    | rw [lookup_setKey_self]
    | rfl

/-- Full characterization of the d-pad rule's `dpad_size` contribution. -/
theorem dpadLayouts_lookup_ds (low : List Char) (d : List (List Char × List Char)) :
    lookupKey (dpadLayouts low d) "dpad_size".toList =
      if (containsSub "dpad".toList low || containsSub "d-pad".toList low) = true then
        if (containsSub "bigger".toList low || containsSub "larger".toList low) = true then
          some "large".toList
        else if containsSub "smaller".toList low = true then some "small".toList
        else lookupKey d "dpad_size".toList
      else lookupKey d "dpad_size".toList := by
  unfold dpadLayouts
  split_ifs
  all_goals first
    | rw [lookup_setKey_self]
    | rfl

/-- Full characterization of the text rule's `text_size` contribution. -/
theorem textLayouts_lookup_ts (low : List Char) (d : List (List Char × List Char)) :
    lookupKey (textLayouts low d) "text_size".toList =
      if containsSub "text".toList low = true then
        if (containsSub "bigger".toList low || containsSub "larger".toList low) = true then
          some "large".toList
        else if containsSub "smaller".toList low = true then some "small".toList
        else lookupKey d "text_size".toList
      else lookupKey d "text_size".toList := by
  unfold textLayouts
  split_ifs
  all_goals first
    | rw [lookup_setKey_self]
    | rfl

/-- The scheme expansion only ever populates the keys primary, secondary
and accent. -/
theorem schemeColors_lookup_none (scheme k : List Char) (h1 : k ≠ "primary".toList)
    (h2 : k ≠ "secondary".toList) (h3 : k ≠ "accent".toList) :
    lookupKey (schemeColors scheme) k = none := by
  unfold schemeColors
  split
  · cases hl : lookupKey colorSchemes scheme with
    | none => rfl
    | some t =>
      simp only [lookupKey]
      rw [if_neg (fun he => h1 he.symm), if_neg (fun he => h2 he.symm),
        if_neg (fun he => h3 he.symm)]
  · rfl

theorem genMods_colors_eq (desc scheme : List Char) :
    (genMods desc scheme).colors = buttonColors (lowerStr desc) (connColors (lowerStr desc)
      (glowColors (lowerStr desc) (knobColors (lowerStr desc) (schemeColors scheme)))) := rfl

theorem genMods_strings_eq (desc scheme : List Char) :
    (genMods desc scheme).strings = connStrings (lowerStr desc) [] := rfl

theorem genMods_layouts_eq (desc scheme : List Char) :
    (genMods desc scheme).layouts = textLayouts (lowerStr desc) (dpadLayouts (lowerStr desc) []) := rfl

theorem mem_keys_setKey {d : List (List Char × List Char)} {k v x : List Char}
    (h : x ∈ (setKey d k v).map (fun nv => nv.1)) :
    x = k ∨ x ∈ d.map (fun nv => nv.1) := by
  rw [List.mem_map] at h
  obtain ⟨nv, hmem, hx⟩ := h
  cases mem_setKey hmem with
  | inl he => left; rw [← hx, he]
  | inr hm => right; rw [List.mem_map]; exact ⟨nv, hm, hx⟩

/-- Updating one key of a dict with pairwise-distinct keys keeps the keys
pairwise distinct: `dict[k] = v` either overwrites in place or appends a
fresh key. -/
theorem setKey_keys_nodup (d : List (List Char × List Char)) (k v : List Char)
    (h : (d.map (fun nv => nv.1)).Nodup) :
    ((setKey d k v).map (fun nv => nv.1)).Nodup := by
  induction d with
  | nil => simp [setKey]
  | cons hd tl ih =>
    obtain ⟨k0, v0⟩ := hd
    rw [List.map_cons, List.nodup_cons] at h
    by_cases hk : k0 = k
    · simp only [setKey, if_pos hk]
      rw [List.map_cons, List.nodup_cons]
      exact ⟨by rw [← hk]; exact h.1, h.2⟩
    · simp only [setKey, if_neg hk]
      rw [List.map_cons, List.nodup_cons]
      refine ⟨fun hmem => ?_, ih h.2⟩
      cases mem_keys_setKey hmem with
      | inl he => exact hk he
      | inr hm => exact h.1 hm

theorem knobColors_keys_nodup (low : List Char) (d : List (List Char × List Char))
    (h : (d.map (fun nv => nv.1)).Nodup) :
    ((knobColors low d).map (fun nv => nv.1)).Nodup := by
  unfold knobColors
  repeat' split
  all_goals first | exact h | exact setKey_keys_nodup _ _ _ h

theorem glowColors_keys_nodup (low : List Char) (d : List (List Char × List Char))
    (h : (d.map (fun nv => nv.1)).Nodup) :
    ((glowColors low d).map (fun nv => nv.1)).Nodup := by
  unfold glowColors
  repeat' split
  all_goals first | exact h | exact setKey_keys_nodup _ _ _ h

theorem connColors_keys_nodup (low : List Char) (d : List (List Char × List Char))
    (h : (d.map (fun nv => nv.1)).Nodup) :
    ((connColors low d).map (fun nv => nv.1)).Nodup := by
  unfold connColors
  repeat' split
  all_goals first | exact h | exact setKey_keys_nodup _ _ _ h

theorem connStrings_keys_nodup (low : List Char) (d : List (List Char × List Char))
    (h : (d.map (fun nv => nv.1)).Nodup) :
    ((connStrings low d).map (fun nv => nv.1)).Nodup := by
  unfold connStrings
  repeat' split
  all_goals first | exact h | exact setKey_keys_nodup _ _ _ h

theorem buttonColors_keys_nodup (low : List Char) (d : List (List Char × List Char))
    (h : (d.map (fun nv => nv.1)).Nodup) :
    ((buttonColors low d).map (fun nv => nv.1)).Nodup := by
  unfold buttonColors
  repeat' split
  all_goals first | exact h | exact setKey_keys_nodup _ _ _ h

theorem dpadLayouts_keys_nodup (low : List Char) (d : List (List Char × List Char))
    (h : (d.map (fun nv => nv.1)).Nodup) :
    ((dpadLayouts low d).map (fun nv => nv.1)).Nodup := by
  unfold dpadLayouts
  repeat' split
  all_goals first | exact h | exact setKey_keys_nodup _ _ _ h

theorem textLayouts_keys_nodup (low : List Char) (d : List (List Char × List Char))
    (h : (d.map (fun nv => nv.1)).Nodup) :
    ((textLayouts low d).map (fun nv => nv.1)).Nodup := by
  unfold textLayouts
  repeat' split
  all_goals first | exact h | exact setKey_keys_nodup _ _ _ h

theorem schemeColors_keys_nodup (scheme : List Char) :
    ((schemeColors scheme).map (fun nv => nv.1)).Nodup := by
  unfold schemeColors
  repeat' split
  all_goals first
    | exact List.nodup_nil
    | (simp only [List.map_cons, List.map_nil]; decide)

theorem genMods_colors_keys_nodup (desc scheme : List Char) :
    ((genMods desc scheme).colors.map (fun nv => nv.1)).Nodup := by
  rw [genMods_colors_eq]
  exact buttonColors_keys_nodup _ _ (connColors_keys_nodup _ _ (glowColors_keys_nodup _ _
    (knobColors_keys_nodup _ _ (schemeColors_keys_nodup scheme))))

theorem genMods_strings_keys_nodup (desc scheme : List Char) :
    ((genMods desc scheme).strings.map (fun nv => nv.1)).Nodup := by
  rw [genMods_strings_eq]
  exact connStrings_keys_nodup _ _ List.nodup_nil

theorem genMods_layouts_keys_nodup (desc scheme : List Char) :
    ((genMods desc scheme).layouts.map (fun nv => nv.1)).Nodup := by
  rw [genMods_layouts_eq]
  exact textLayouts_keys_nodup _ _ (dpadLayouts_keys_nodup _ _ List.nodup_nil)

/-- In a dict with pairwise-distinct keys, a key that resolves appears in
exactly one entry. -/
theorem countP_key_eq_one {d : List (List Char × List Char)} {k v : List Char}
    (hn : (d.map (fun nv => nv.1)).Nodup) (hl : lookupKey d k = some v) :
    d.countP (fun nv => decide (nv.1 = k)) = 1 := by
  induction d with
  | nil => exact absurd hl (by simp [lookupKey])
  | cons hd tl ih =>
    obtain ⟨k0, v0⟩ := hd
    rw [List.map_cons, List.nodup_cons] at hn
    rw [List.countP_cons]
    by_cases hk : k0 = k
    · have hz : tl.countP (fun nv => decide (nv.1 = k)) = 0 := by
        rw [List.countP_eq_zero]
        intro nv hmem hdec
        exact hn.1 (List.mem_map.mpr ⟨nv, hmem,
          by rw [of_decide_eq_true hdec, hk]⟩)
      simp [hz, hk]
    · have hl2 : lookupKey tl k = some v := by
        simpa [lookupKey, hk] using hl
      simp [hk, ih hn.2 hl2]

/-- Claim C6: the keyword rules of generate_gui_modifications are
independent if-blocks, not alternatives of one chain: for every
description and scheme, each of the seven generated instructions is fully
determined by its own trigger words and modifier words alone (the seven
lookup equations below mention only that rule's keywords), so any set of
co-occurring triggers contributes the union of its instructions.  In
particular the example description "make the button blue and text bigger"
yields both the button-color and the text-size instruction. -/
theorem C6_union_all_triggers (desc scheme : List Char) :
    (lookupKey (genMods desc scheme).colors "control_color".toList =
      if (containsSub "knob".toList (lowerStr desc)
          || containsSub "control".toList (lowerStr desc)) = true then
        if containsSub "blue".toList (lowerStr desc) = true then some "#007bff".toList
        else if containsSub "green".toList (lowerStr desc) = true then some "#28a745".toList
        else if containsSub "red".toList (lowerStr desc) = true then some "#dc3545".toList
        else if containsSub "orange".toList (lowerStr desc) = true then some "#fd7e14".toList
        else none
      else none) ∧
    (lookupKey (genMods desc scheme).layouts "dpad_size".toList =
      if (containsSub "dpad".toList (lowerStr desc)
          || containsSub "d-pad".toList (lowerStr desc)) = true then
        if (containsSub "bigger".toList (lowerStr desc)
            || containsSub "larger".toList (lowerStr desc)) = true then some "large".toList
        else if containsSub "smaller".toList (lowerStr desc) = true then some "small".toList
        else none
      else none) ∧
    (lookupKey (genMods desc scheme).colors "glow_color".toList =
      if (containsSub "glow".toList (lowerStr desc)
          || containsSub "light".toList (lowerStr desc)) = true then
        if containsSub "blue".toList (lowerStr desc) = true then some "#007bff".toList
        else if containsSub "green".toList (lowerStr desc) = true then some "#28a745".toList
        else if containsSub "red".toList (lowerStr desc) = true then some "#dc3545".toList
        else none
      else none) ∧
    (lookupKey (genMods desc scheme).strings "connection_status".toList =
      if (containsSub "connection".toList (lowerStr desc)
          || containsSub "status".toList (lowerStr desc)) = true then
        if containsSub "connected".toList (lowerStr desc) = true then some "Connected".toList
        else if containsSub "disconnected".toList (lowerStr desc) = true then
          some "Disconnected".toList
        else none
      else none) ∧
    (lookupKey (genMods desc scheme).colors "status_color".toList =
      if (containsSub "connection".toList (lowerStr desc)
          || containsSub "status".toList (lowerStr desc)) = true then
        if containsSub "connected".toList (lowerStr desc) = true then some "#28a745".toList
        else if containsSub "disconnected".toList (lowerStr desc) = true then
          some "#dc3545".toList
        else none
      else none) ∧
    (lookupKey (genMods desc scheme).colors "button_color".toList =
      if containsSub "button".toList (lowerStr desc) = true then
        if containsSub "blue".toList (lowerStr desc) = true then some "#007bff".toList
        else if containsSub "green".toList (lowerStr desc) = true then some "#28a745".toList
        else if containsSub "red".toList (lowerStr desc) = true then some "#dc3545".toList
        else none
      else none) ∧
    (lookupKey (genMods desc scheme).layouts "text_size".toList =
      if containsSub "text".toList (lowerStr desc) = true then
        if (containsSub "bigger".toList (lowerStr desc)
            || containsSub "larger".toList (lowerStr desc)) = true then some "large".toList
        else if containsSub "smaller".toList (lowerStr desc) = true then some "small".toList
        else none
      else none) ∧
    lookupKey (genMods "make the button blue and text bigger".toList []).colors
      "button_color".toList = some "#007bff".toList ∧
    lookupKey (genMods "make the button blue and text bigger".toList []).layouts
      "text_size".toList = some "large".toList := by
  refine ⟨?_, ?_, ?_, ?_, ?_, ?_, ?_, by decide, by decide⟩
  · rw [genMods_colors_eq,
      buttonColors_lookup_ne (lowerStr desc) _ "control_color".toList (by decide),
      connColors_lookup_ne (lowerStr desc) _ "control_color".toList (by decide),
      glowColors_lookup_ne (lowerStr desc) _ "control_color".toList (by decide),
      knobColors_lookup_cc,
      schemeColors_lookup_none scheme "control_color".toList (by decide) (by decide) (by decide)]
  · rw [genMods_layouts_eq,
      textLayouts_lookup_ne (lowerStr desc) _ "dpad_size".toList (by decide),
      dpadLayouts_lookup_ds, lookup_nil]
  · rw [genMods_colors_eq,
      buttonColors_lookup_ne (lowerStr desc) _ "glow_color".toList (by decide),
      connColors_lookup_ne (lowerStr desc) _ "glow_color".toList (by decide),
      glowColors_lookup_gc,
      knobColors_lookup_ne (lowerStr desc) _ "glow_color".toList (by decide),
      schemeColors_lookup_none scheme "glow_color".toList (by decide) (by decide) (by decide)]
  · rw [genMods_strings_eq, connStrings_lookup_cs, lookup_nil]
  · rw [genMods_colors_eq,
      buttonColors_lookup_ne (lowerStr desc) _ "status_color".toList (by decide),
      connColors_lookup_sc,
      glowColors_lookup_ne (lowerStr desc) _ "status_color".toList (by decide),
      knobColors_lookup_ne (lowerStr desc) _ "status_color".toList (by decide),
      schemeColors_lookup_none scheme "status_color".toList (by decide) (by decide) (by decide)]
  · rw [genMods_colors_eq,
      buttonColors_lookup_bc,
      connColors_lookup_ne (lowerStr desc) _ "button_color".toList (by decide),
      glowColors_lookup_ne (lowerStr desc) _ "button_color".toList (by decide),
      knobColors_lookup_ne (lowerStr desc) _ "button_color".toList (by decide),
      schemeColors_lookup_none scheme "button_color".toList (by decide) (by decide) (by decide)]
  · rw [genMods_layouts_eq,
      textLayouts_lookup_ts,
      dpadLayouts_lookup_ne (lowerStr desc) _ "text_size".toList (by decide),
      lookup_nil]

/-- Claim C9 amended: when several modifiers of one rule's axis co-occur
with that rule's trigger, exactly one instruction is emitted for the
trigger's key (its key occurs in exactly one entry of the generated dict)
and the winner is the earliest-declared branch of that rule's fixed
if/elif chain (blue, then green, then red, then orange where present;
connected before disconnected; bigger/larger before smaller), independent
of the modifiers' positions in the description text.  Stated and proved
for every trigger of generate_gui_modifications. -/
theorem C9_modifier_priority (desc scheme : List Char) :
    ((containsSub "knob".toList (lowerStr desc)
        || containsSub "control".toList (lowerStr desc)) = true →
      (containsSub "blue".toList (lowerStr desc) || containsSub "green".toList (lowerStr desc)
        || containsSub "red".toList (lowerStr desc)
        || containsSub "orange".toList (lowerStr desc)) = true →
      (genMods desc scheme).colors.countP
          (fun nv => decide (nv.1 = "control_color".toList)) = 1 ∧
        lookupKey (genMods desc scheme).colors "control_color".toList =
          some (if containsSub "blue".toList (lowerStr desc) = true then "#007bff".toList
            else if containsSub "green".toList (lowerStr desc) = true then "#28a745".toList
            else if containsSub "red".toList (lowerStr desc) = true then "#dc3545".toList
            else "#fd7e14".toList)) ∧
    ((containsSub "dpad".toList (lowerStr desc)
        || containsSub "d-pad".toList (lowerStr desc)) = true →
      (containsSub "bigger".toList (lowerStr desc) || containsSub "larger".toList (lowerStr desc)
        || containsSub "smaller".toList (lowerStr desc)) = true →
      (genMods desc scheme).layouts.countP
          (fun nv => decide (nv.1 = "dpad_size".toList)) = 1 ∧
        lookupKey (genMods desc scheme).layouts "dpad_size".toList =
          some (if (containsSub "bigger".toList (lowerStr desc)
              || containsSub "larger".toList (lowerStr desc)) = true then "large".toList
            else "small".toList)) ∧
    ((containsSub "glow".toList (lowerStr desc)
        || containsSub "light".toList (lowerStr desc)) = true →
      (containsSub "blue".toList (lowerStr desc) || containsSub "green".toList (lowerStr desc)
        || containsSub "red".toList (lowerStr desc)) = true →
      (genMods desc scheme).colors.countP
          (fun nv => decide (nv.1 = "glow_color".toList)) = 1 ∧
        lookupKey (genMods desc scheme).colors "glow_color".toList =
          some (if containsSub "blue".toList (lowerStr desc) = true then "#007bff".toList
            else if containsSub "green".toList (lowerStr desc) = true then "#28a745".toList
            else "#dc3545".toList)) ∧
    ((containsSub "connection".toList (lowerStr desc)
        || containsSub "status".toList (lowerStr desc)) = true →
      (containsSub "connected".toList (lowerStr desc)
        || containsSub "disconnected".toList (lowerStr desc)) = true →
      (genMods desc scheme).strings.countP
          (fun nv => decide (nv.1 = "connection_status".toList)) = 1 ∧
        lookupKey (genMods desc scheme).strings "connection_status".toList =
          some (if containsSub "connected".toList (lowerStr desc) = true then "Connected".toList
            else "Disconnected".toList)) ∧
    ((containsSub "connection".toList (lowerStr desc)
        || containsSub "status".toList (lowerStr desc)) = true →
      (containsSub "connected".toList (lowerStr desc)
        || containsSub "disconnected".toList (lowerStr desc)) = true →
      (genMods desc scheme).colors.countP
          (fun nv => decide (nv.1 = "status_color".toList)) = 1 ∧
        lookupKey (genMods desc scheme).colors "status_color".toList =
          some (if containsSub "connected".toList (lowerStr desc) = true then "#28a745".toList
            else "#dc3545".toList)) ∧
    (containsSub "button".toList (lowerStr desc) = true →
      (containsSub "blue".toList (lowerStr desc) || containsSub "green".toList (lowerStr desc)
        || containsSub "red".toList (lowerStr desc)) = true →
      (genMods desc scheme).colors.countP
          (fun nv => decide (nv.1 = "button_color".toList)) = 1 ∧
        lookupKey (genMods desc scheme).colors "button_color".toList =
          some (if containsSub "blue".toList (lowerStr desc) = true then "#007bff".toList
            else if containsSub "green".toList (lowerStr desc) = true then "#28a745".toList
            else "#dc3545".toList)) ∧
    (containsSub "text".toList (lowerStr desc) = true →
      (containsSub "bigger".toList (lowerStr desc) || containsSub "larger".toList (lowerStr desc)
        || containsSub "smaller".toList (lowerStr desc)) = true →
      (genMods desc scheme).layouts.countP
          (fun nv => decide (nv.1 = "text_size".toList)) = 1 ∧
        lookupKey (genMods desc scheme).layouts "text_size".toList =
          some (if (containsSub "bigger".toList (lowerStr desc)
              || containsSub "larger".toList (lowerStr desc)) = true then "large".toList
            else "small".toList)) := by
  refine ⟨?_, ?_, ?_, ?_, ?_, ?_, ?_⟩
  · intro hg hm
    have hl2 : lookupKey (genMods desc scheme).colors "control_color".toList =
        some (if containsSub "blue".toList (lowerStr desc) = true then "#007bff".toList
          else if containsSub "green".toList (lowerStr desc) = true then "#28a745".toList
          else if containsSub "red".toList (lowerStr desc) = true then "#dc3545".toList
          else "#fd7e14".toList) := by
      rw [genMods_colors_eq,
        buttonColors_lookup_ne (lowerStr desc) _ "control_color".toList (by decide),
        connColors_lookup_ne (lowerStr desc) _ "control_color".toList (by decide),
        glowColors_lookup_ne (lowerStr desc) _ "control_color".toList (by decide),
        knobColors_lookup_cc,
        schemeColors_lookup_none scheme "control_color".toList (by decide) (by decide) (by decide),
        if_pos hg]
      split_ifs with h1 h2 h3 h4 <;> first | rfl | simp_all
    exact ⟨countP_key_eq_one (genMods_colors_keys_nodup desc scheme) hl2, hl2⟩
  · intro hg hm
    have hl2 : lookupKey (genMods desc scheme).layouts "dpad_size".toList =
        some (if (containsSub "bigger".toList (lowerStr desc)
            || containsSub "larger".toList (lowerStr desc)) = true then "large".toList
          else "small".toList) := by
      rw [genMods_layouts_eq,
        textLayouts_lookup_ne (lowerStr desc) _ "dpad_size".toList (by decide),
        dpadLayouts_lookup_ds, lookup_nil, if_pos hg]
      split_ifs with h1 h2 <;> first | rfl | simp_all
    exact ⟨countP_key_eq_one (genMods_layouts_keys_nodup desc scheme) hl2, hl2⟩
  · intro hg hm
    have hl2 : lookupKey (genMods desc scheme).colors "glow_color".toList =
        some (if containsSub "blue".toList (lowerStr desc) = true then "#007bff".toList
          else if containsSub "green".toList (lowerStr desc) = true then "#28a745".toList
          else "#dc3545".toList) := by
      rw [genMods_colors_eq,
        buttonColors_lookup_ne (lowerStr desc) _ "glow_color".toList (by decide),
        connColors_lookup_ne (lowerStr desc) _ "glow_color".toList (by decide),
        glowColors_lookup_gc,
        knobColors_lookup_ne (lowerStr desc) _ "glow_color".toList (by decide),
        schemeColors_lookup_none scheme "glow_color".toList (by decide) (by decide) (by decide),
        if_pos hg]
      split_ifs with h1 h2 h3 <;> first | rfl | simp_all
    exact ⟨countP_key_eq_one (genMods_colors_keys_nodup desc scheme) hl2, hl2⟩
  · intro hg hm
    have hl2 : lookupKey (genMods desc scheme).strings "connection_status".toList =
        some (if containsSub "connected".toList (lowerStr desc) = true then "Connected".toList
          else "Disconnected".toList) := by
      rw [genMods_strings_eq, connStrings_lookup_cs, lookup_nil, if_pos hg]
      split_ifs with h1 h2 <;> first | rfl | simp_all
    exact ⟨countP_key_eq_one (genMods_strings_keys_nodup desc scheme) hl2, hl2⟩
  · intro hg hm
    have hl2 : lookupKey (genMods desc scheme).colors "status_color".toList =
        some (if containsSub "connected".toList (lowerStr desc) = true then "#28a745".toList
          else "#dc3545".toList) := by
      rw [genMods_colors_eq,
        buttonColors_lookup_ne (lowerStr desc) _ "status_color".toList (by decide),
        connColors_lookup_sc,
        glowColors_lookup_ne (lowerStr desc) _ "status_color".toList (by decide),
        knobColors_lookup_ne (lowerStr desc) _ "status_color".toList (by decide),
        schemeColors_lookup_none scheme "status_color".toList (by decide) (by decide) (by decide),
        if_pos hg]
      split_ifs with h1 h2 <;> first | rfl | simp_all
    exact ⟨countP_key_eq_one (genMods_colors_keys_nodup desc scheme) hl2, hl2⟩
  · intro hg hm
    have hl2 : lookupKey (genMods desc scheme).colors "button_color".toList =
        some (if containsSub "blue".toList (lowerStr desc) = true then "#007bff".toList
          else if containsSub "green".toList (lowerStr desc) = true then "#28a745".toList
          else "#dc3545".toList) := by
      rw [genMods_colors_eq,
        buttonColors_lookup_bc,
        connColors_lookup_ne (lowerStr desc) _ "button_color".toList (by decide),
        glowColors_lookup_ne (lowerStr desc) _ "button_color".toList (by decide),
        knobColors_lookup_ne (lowerStr desc) _ "button_color".toList (by decide),
        schemeColors_lookup_none scheme "button_color".toList (by decide) (by decide) (by decide),
        if_pos hg]
      split_ifs with h1 h2 h3 <;> first | rfl | simp_all
    exact ⟨countP_key_eq_one (genMods_colors_keys_nodup desc scheme) hl2, hl2⟩
  · intro hg hm
    have hl2 : lookupKey (genMods desc scheme).layouts "text_size".toList =
        some (if (containsSub "bigger".toList (lowerStr desc)
            || containsSub "larger".toList (lowerStr desc)) = true then "large".toList
          else "small".toList) := by
      rw [genMods_layouts_eq,
        textLayouts_lookup_ts,
        dpadLayouts_lookup_ne (lowerStr desc) _ "text_size".toList (by decide),
        lookup_nil, if_pos hg]
      split_ifs with h1 h2 <;> first | rfl | simp_all
    exact ⟨countP_key_eq_one (genMods_layouts_keys_nodup desc scheme) hl2, hl2⟩

/-- Witness for the amended C9, at the counterexample's own description
"green blue button": the button trigger with both green and blue present
emits exactly one button-color instruction and its value is blue's
#007bff, the earliest-declared branch. -/
theorem C9_priority_witness :
    (genMods "green blue button".toList []).colors.countP
        (fun nv => decide (nv.1 = "button_color".toList)) = 1 ∧
      lookupKey (genMods "green blue button".toList []).colors "button_color".toList =
        some "#007bff".toList := by
  have h := C9_modifier_priority "green blue button".toList []
  obtain ⟨hc, hl⟩ := h.2.2.2.2.2.1 (by decide) (by decide)
  refine ⟨hc, ?_⟩
  rw [hl]
  decide
